import Mathlib

/-!
Verification of the chess rules engine in `Chess/ChessEngine.py`
(classes `GameState`, `Move`, `Castling`) against its specification.

Modelling conventions (shallow embedding):
* A board square ("--", "wp", "bR", ...) becomes the inductive `Sq`.
* Python `int` coordinates become `Int`; `board[r][c]` reads are modelled by
  `bget` (out-of-range reads yield `Sq.empty`; every read performed by the
  modelled operations on well-formed states is in range, where Python and the
  model agree), writes by `bset` (out-of-range writes are the identity).
* Python lists used as stacks (`move_log`, `redo_log`, `castling_log`,
  which the source only appends to at the end, reads at `[-1]` and pops at
  the end) are modelled with the most recent element first (cons / head /
  tail).
* The tuple `en_passant_possible`, which is either `()` or a coordinate
  pair, becomes `Option (Int × Int)`; `promotion_square` likewise.
* `check_for_draw`'s four-piece branch can raise `IndexError`
  (`white_bishops[0]` / `black_bishops[0]` on an empty list); fallible code
  returns `Option`: `none` models the escaping exception.
* `square_under_attack` temporarily flips `white_to_move` and flips it
  back; the `...Run` functions return the final state next to the result so
  that this internal mutation is modelled faithfully.
-/

set_option maxRecDepth 100000
set_option maxHeartbeats 4000000

inductive PieceColor where
  | white
  | black
deriving DecidableEq, Repr

inductive PieceKind where
  | pawn
  | rook
  | knight
  | bishop
  | queen
  | king
deriving DecidableEq, Repr

/-- A board square: `"--"` or a two-character piece string in the source. -/
inductive Sq where
  | empty
  | piece (c : PieceColor) (k : PieceKind)
deriving DecidableEq, Repr

/-- First character of the square string (`None` for `"--"`, whose first
character `'-'` matches neither color test in the source). -/
def Sq.color : Sq → Option PieceColor
  | .empty => none
  | .piece c _ => some c

/-- Second character of the square string. -/
def Sq.kind : Sq → Option PieceKind
  | .empty => none
  | .piece _ k => some k

abbrev wp : Sq := .piece .white .pawn
abbrev wR : Sq := .piece .white .rook
abbrev wN : Sq := .piece .white .knight
abbrev wB : Sq := .piece .white .bishop
abbrev wQ : Sq := .piece .white .queen
abbrev wK : Sq := .piece .white .king
abbrev bp : Sq := .piece .black .pawn
abbrev bR : Sq := .piece .black .rook
abbrev bN : Sq := .piece .black .knight
abbrev bB : Sq := .piece .black .bishop
abbrev bQ : Sq := .piece .black .queen
abbrev bK : Sq := .piece .black .king

abbrev Board := List (List Sq)

/-- `board[r][c]` (read). All reads reached by the modelled operations on
well-formed states are in range. -/
def bget (b : Board) (r c : Int) : Sq :=
  if 0 ≤ r ∧ 0 ≤ c then ((b.getD r.toNat []).getD c.toNat Sq.empty) else Sq.empty

/-- `board[r][c] = v` (write). -/
def bset (b : Board) (r c : Int) (v : Sq) : Board :=
  if 0 ≤ r ∧ 0 ≤ c then b.set r.toNat ((b.getD r.toNat []).set c.toNat v) else b

/-- Class `Castling`: the four castling-rights booleans. -/
structure Castling where
  white_king_side : Bool
  black_king_side : Bool
  white_queen_side : Bool
  black_queen_side : Bool
deriving DecidableEq, Repr

/-- Class `Move` (`Move.__init__` stores these fields; `move_ID`,
`is_pawn_promotion` and `is_capture` are values computed from them at
construction time and are modelled as derived functions below). -/
structure Move where
  start_row : Int
  start_col : Int
  end_row : Int
  end_col : Int
  piece_moved : Sq
  piece_captured : Sq
  is_en_passant_move : Bool
  is_castling_move : Bool
  promotion_piece : Option PieceKind
deriving DecidableEq, Repr

/-- `Move.__init__(start_square, end_square, board, is_en_passant_move,
is_castling_move, promotion_piece)`. -/
def mkMove (s e : Int × Int) (b : Board) (isEp isCastle : Bool)
    (promo : Option PieceKind) : Move :=
  let pm := bget b s.1 s.2
  let pc := bget b e.1 e.2
  { start_row := s.1, start_col := s.2, end_row := e.1, end_col := e.2
    piece_moved := pm
    piece_captured := if isEp then (if pm == bp then wp else bp) else pc
    is_en_passant_move := isEp
    is_castling_move := isCastle
    promotion_piece := promo }

/-- `self.is_pawn_promotion = (piece_moved == "wp" and end_row == 0) or
(piece_moved == "bp" and end_row == 7)`. -/
def Move.is_pawn_promotion (m : Move) : Bool :=
  (m.piece_moved == wp && m.end_row == 0) || (m.piece_moved == bp && m.end_row == 7)

/-- `self.move_ID = start_row * 1000 + start_col * 100 + end_row * 10 + end_col`. -/
def Move.move_ID (m : Move) : Int :=
  m.start_row * 1000 + m.start_col * 100 + m.end_row * 10 + m.end_col

/-- `Move.__eq__`: equality by `move_ID` (both operands `Move` instances). -/
def moveEqB (m1 m2 : Move) : Bool :=
  m1.move_ID == m2.move_ID

/-- The condition `piece_moved[1] == "p" and abs(start_row - end_row) == 2`
used by `make_move` and `undo_move`. -/
def Move.isTwoSquarePawn (m : Move) : Bool :=
  m.piece_moved.kind == some PieceKind.pawn && (m.start_row - m.end_row).natAbs == 2

/-- Class `GameState` fields (`move_functions` is the static dispatch table,
realised below as `pieceMoves`). -/
structure GState where
  board : Board
  white_to_move : Bool
  move_log : List Move
  redo_log : List Move
  white_king_location : Int × Int
  black_king_location : Int × Int
  checkmate : Bool
  stalemate : Bool
  draw : Bool
  en_passant_possible : Option (Int × Int)
  castling_rights : Castling
  castling_log : List Castling
  pawn_promotion : Bool
  promotion_square : Option (Int × Int)
  promotion_piece_color : Option PieceColor
deriving DecidableEq, Repr

/-- `GameState.__init__`. -/
def initialState : GState :=
  { board :=
      [[bR, bN, bB, bQ, bK, bB, bN, bR],
       [bp, bp, bp, bp, bp, bp, bp, bp],
       [.empty, .empty, .empty, .empty, .empty, .empty, .empty, .empty],
       [.empty, .empty, .empty, .empty, .empty, .empty, .empty, .empty],
       [.empty, .empty, .empty, .empty, .empty, .empty, .empty, .empty],
       [.empty, .empty, .empty, .empty, .empty, .empty, .empty, .empty],
       [wp, wp, wp, wp, wp, wp, wp, wp],
       [wR, wN, wB, wQ, wK, wB, wN, wR]]
    white_to_move := true
    move_log := []
    redo_log := []
    white_king_location := (7, 4)
    black_king_location := (0, 4)
    checkmate := false
    stalemate := false
    draw := false
    en_passant_possible := none
    castling_rights := ⟨true, true, true, true⟩
    castling_log := [⟨true, true, true, true⟩]
    pawn_promotion := false
    promotion_square := none
    promotion_piece_color := none }

/-- `GameState.update_castling` (it mutates `self.castling_rights` in place;
modelled as returning the new rights value). -/
def updateCastling (cr : Castling) (m : Move) : Castling :=
  if m.piece_moved == wK then
    { cr with white_king_side := false, white_queen_side := false }
  else if m.piece_moved == bK then
    { cr with black_king_side := false, black_queen_side := false }
  else if m.piece_moved == wR then
    (if m.start_row == 7 then
      (if m.start_col == 0 then { cr with white_queen_side := false }
       else if m.start_col == 7 then { cr with white_king_side := false }
       else cr)
     else cr)
  else if m.piece_moved == bR then
    (if m.start_row == 0 then
      (if m.start_col == 0 then { cr with black_queen_side := false }
       else if m.start_col == 7 then { cr with black_king_side := false }
       else cr)
     else cr)
  else cr

/-- `GameState.make_move`.  Note the early `return` in the pawn-promotion
branch: it skips the en-passant update, the castling-rights update and the
`castling_log` push. -/
def makeMove (s : GState) (m : Move) : GState :=
  let b1 := bset (bset s.board m.start_row m.start_col .empty) m.end_row m.end_col m.piece_moved
  let wkl := if m.piece_moved == wK then (m.end_row, m.end_col) else s.white_king_location
  let bkl := if m.piece_moved == bK then (m.end_row, m.end_col) else s.black_king_location
  let s1 := { s with
    board := b1
    move_log := m :: s.move_log
    white_to_move := !s.white_to_move
    white_king_location := wkl
    black_king_location := bkl }
  if m.is_pawn_promotion then
    match m.promotion_piece with
    | some pk =>
      -- normal promotion: replace the pawn by the promoted piece, then return
      match m.piece_moved.color with
      | some col => { s1 with board := bset b1 m.end_row m.end_col (Sq.piece col pk) }
      | none => s1
    | none =>
      -- deferred promotion: record the pending promotion, then return
      { s1 with
        pawn_promotion := true
        promotion_square := some (m.end_row, m.end_col)
        promotion_piece_color := m.piece_moved.color }
  else
    let b2 := if m.is_en_passant_move then bset b1 m.start_row m.end_col .empty else b1
    let ep : Option (Int × Int) :=
      if m.isTwoSquarePawn then some ((m.start_row + m.end_row).fdiv 2, m.start_col)
      else none
    let b3 :=
      if m.is_castling_move then
        (if m.end_col - m.start_col == 2 then
          bset (bset b2 m.end_row (m.end_col - 1) (bget b2 m.end_row (m.end_col + 1)))
            m.end_row (m.end_col + 1) .empty
        else
          bset (bset b2 m.end_row (m.end_col + 1) (bget b2 m.end_row (m.end_col - 2)))
            m.end_row (m.end_col - 2) .empty)
      else b2
    let cr := updateCastling s.castling_rights m
    { s1 with
      board := b3
      en_passant_possible := ep
      castling_rights := cr
      castling_log := cr :: s.castling_log }

/-- `GameState.undo_move(add_to_redo)`. -/
def undoMove (addToRedo : Bool) (s : GState) : GState :=
  match s.move_log with
  | [] => s
  | m :: rest =>
    let b1 := bset (bset s.board m.start_row m.start_col m.piece_moved)
      m.end_row m.end_col m.piece_captured
    let wkl := if m.piece_moved == wK then (m.start_row, m.start_col) else s.white_king_location
    let bkl := if m.piece_moved == bK then (m.start_row, m.start_col) else s.black_king_location
    -- undo en passant
    let b2 := if m.is_en_passant_move then
        bset (bset b1 m.end_row m.end_col .empty) m.start_row m.end_col m.piece_captured
      else b1
    let ep1 := if m.is_en_passant_move then some (m.end_row, m.end_col) else s.en_passant_possible
    -- undo a two-square pawn advance
    let ep2 := if m.isTwoSquarePawn then none else ep1
    -- undo castling rights: pop the log (if non-empty), then, if still
    -- non-empty, restore the rights from its new last element
    let clog := if s.castling_log.isEmpty then s.castling_log else s.castling_log.tail
    let cr := match s.castling_log with
      | [] => s.castling_rights
      | [_] => s.castling_rights
      | _ :: c :: _ => c
    -- undo the rook relocation of a castling move
    let b3 :=
      if m.is_castling_move then
        (if m.end_col - m.start_col == 2 then
          bset (bset b2 m.end_row (m.end_col + 1) (bget b2 m.end_row (m.end_col - 1)))
            m.end_row (m.end_col - 1) .empty
        else
          bset (bset b2 m.end_row (m.end_col - 2) (bget b2 m.end_row (m.end_col + 1)))
            m.end_row (m.end_col + 1) .empty)
      else b2
    let rlog := if addToRedo then m :: s.redo_log else s.redo_log
    let pp := if m.is_pawn_promotion then false else s.pawn_promotion
    let psq := if m.is_pawn_promotion then none else s.promotion_square
    { s with
      board := b3
      move_log := rest
      white_to_move := !s.white_to_move
      white_king_location := wkl
      black_king_location := bkl
      en_passant_possible := ep2
      castling_log := clog
      castling_rights := cr
      redo_log := rlog
      pawn_promotion := pp
      promotion_square := psq }

/-- `GameState.redo_move`. -/
def redoMove (s : GState) : GState :=
  match s.redo_log with
  | [] => s
  | m :: rest => makeMove { s with redo_log := rest } m

/-- `GameState.get_pawn_moves` (reads only the board, the side to move and
`en_passant_possible`, which are passed explicitly). -/
def getPawnMoves (b : Board) (wtm : Bool) (ep : Option (Int × Int)) (r c : Int) :
    List Move :=
  if wtm then
    (if r - 1 ≥ 0 then
      (if bget b (r - 1) c == Sq.empty then
        mkMove (r, c) (r - 1, c) b false false none ::
          (if r == 6 && bget b (r - 2) c == Sq.empty then
            [mkMove (r, c) (r - 2, c) b false false none]
          else [])
      else []) ++
      (if c - 1 ≥ 0 then
        (if (bget b (r - 1) (c - 1)).color == some PieceColor.black then
          [mkMove (r, c) (r - 1, c - 1) b false false none]
        else if ep == some (r - 1, c - 1) then
          [mkMove (r, c) (r - 1, c - 1) b true false none]
        else [])
      else []) ++
      (if c + 1 ≤ 7 then
        (if (bget b (r - 1) (c + 1)).color == some PieceColor.black then
          [mkMove (r, c) (r - 1, c + 1) b false false none]
        else if ep == some (r - 1, c + 1) then
          [mkMove (r, c) (r - 1, c + 1) b true false none]
        else [])
      else [])
    else [])
  else
    (if r + 1 ≤ 7 then
      (if bget b (r + 1) c == Sq.empty then
        mkMove (r, c) (r + 1, c) b false false none ::
          (if r == 1 && bget b (r + 2) c == Sq.empty then
            [mkMove (r, c) (r + 2, c) b false false none]
          else [])
      else []) ++
      (if c - 1 ≥ 0 then
        (if (bget b (r + 1) (c - 1)).color == some PieceColor.white then
          [mkMove (r, c) (r + 1, c - 1) b false false none]
        else if ep == some (r + 1, c - 1) then
          [mkMove (r, c) (r + 1, c - 1) b true false none]
        else [])
      else []) ++
      (if c + 1 ≤ 7 then
        (if (bget b (r + 1) (c + 1)).color == some PieceColor.white then
          [mkMove (r, c) (r + 1, c + 1) b false false none]
        else if ep == some (r + 1, c + 1) then
          [mkMove (r, c) (r + 1, c + 1) b true false none]
        else [])
      else [])
    else [])

/-- One direction of the sliding loop `for i in range(1, 8)` in
`get_rook_moves`/`get_bishop_moves`, with its `break`s. `n` is the number of
remaining iterations, `i` the current multiplier. -/
def rayMoves (b : Board) (enemy : PieceColor) (r c dr dc : Int) :
    Nat → Int → List Move
  | 0, _ => []
  | n + 1, i =>
    let er := r + dr * i
    let ec := c + dc * i
    if 0 ≤ er ∧ er < 8 ∧ 0 ≤ ec ∧ ec < 8 then
      (if bget b er ec == Sq.empty then
        mkMove (r, c) (er, ec) b false false none :: rayMoves b enemy r c dr dc n (i + 1)
      else if (bget b er ec).color == some enemy then
        [mkMove (r, c) (er, ec) b false false none]
      else [])
    else []

/-- `GameState.get_rook_moves`. -/
def getRookMoves (b : Board) (wtm : Bool) (r c : Int) : List Move :=
  let enemy := if wtm then PieceColor.black else PieceColor.white
  [((-1 : Int), (0 : Int)), (0, -1), (1, 0), (0, 1)].flatMap
    (fun d => rayMoves b enemy r c d.1 d.2 7 1)

/-- `GameState.get_bishop_moves`. -/
def getBishopMoves (b : Board) (wtm : Bool) (r c : Int) : List Move :=
  let enemy := if wtm then PieceColor.black else PieceColor.white
  [((-1 : Int), (-1 : Int)), (-1, 1), (1, -1), (1, 1)].flatMap
    (fun d => rayMoves b enemy r c d.1 d.2 7 1)

/-- `GameState.get_knight_moves`. -/
def getKnightMoves (b : Board) (wtm : Bool) (r c : Int) : List Move :=
  let ally := if wtm then PieceColor.white else PieceColor.black
  [((-2 : Int), (-1 : Int)), (-2, 1), (-1, -2), (-1, 2), (1, -2), (1, 2), (2, -1), (2, 1)].flatMap
    (fun d =>
      let er := r + d.1
      let ec := c + d.2
      if 0 ≤ er ∧ er < 8 ∧ 0 ≤ ec ∧ ec < 8 then
        (if (bget b er ec).color != some ally then [mkMove (r, c) (er, ec) b false false none]
        else [])
      else [])

/-- `GameState.get_queen_moves`: rook moves then bishop moves. -/
def getQueenMoves (b : Board) (wtm : Bool) (r c : Int) : List Move :=
  getRookMoves b wtm r c ++ getBishopMoves b wtm r c

/-- `GameState.get_king_moves`. -/
def getKingMoves (b : Board) (wtm : Bool) (r c : Int) : List Move :=
  let ally := if wtm then PieceColor.white else PieceColor.black
  [((-1 : Int), (-1 : Int)), (-1, 0), (-1, 1), (0, -1), (0, 1), (1, -1), (1, 0), (1, 1)].flatMap
    (fun d =>
      let er := r + d.1
      let ec := c + d.2
      if 0 ≤ er ∧ er < 8 ∧ 0 ≤ ec ∧ ec < 8 then
        (if (bget b er ec).color != some ally then [mkMove (r, c) (er, ec) b false false none]
        else [])
      else [])

/-- The `move_functions` dispatch table. -/
def pieceMoves (b : Board) (wtm : Bool) (ep : Option (Int × Int)) (k : PieceKind)
    (r c : Int) : List Move :=
  match k with
  | .pawn => getPawnMoves b wtm ep r c
  | .rook => getRookMoves b wtm r c
  | .knight => getKnightMoves b wtm r c
  | .bishop => getBishopMoves b wtm r c
  | .queen => getQueenMoves b wtm r c
  | .king => getKingMoves b wtm r c

/-- `GameState.get_all_possible_moves`, as a function of the three state
fields it reads. -/
def allPossibleMoves (b : Board) (wtm : Bool) (ep : Option (Int × Int)) : List Move :=
  (List.range b.length).flatMap (fun r =>
    (List.range (b.getD r []).length).flatMap (fun c =>
      match (b.getD r []).getD c Sq.empty with
      | Sq.empty => []
      | Sq.piece col k =>
        if (col == PieceColor.white && wtm) || (col == PieceColor.black && !wtm) then
          pieceMoves b wtm ep k (r : Int) (c : Int)
        else []))

def getAllPossibleMoves (s : GState) : List Move :=
  allPossibleMoves s.board s.white_to_move s.en_passant_possible

/-- `GameState.square_under_attack`: flips the turn, generates the opponent's
moves, flips back, then scans for a move ending on `(r, c)`.  The returned
state records the net effect of the two flips. -/
def squareUnderAttackRun (s : GState) (r c : Int) : Bool × GState :=
  let s1 := { s with white_to_move := !s.white_to_move }
  let omoves := getAllPossibleMoves s1
  let s2 := { s1 with white_to_move := !s1.white_to_move }
  (omoves.any (fun m => m.end_row == r && m.end_col == c), s2)

/-- `GameState.in_check`. -/
def inCheckRun (s : GState) : Bool × GState :=
  if s.white_to_move then
    squareUnderAttackRun s s.white_king_location.1 s.white_king_location.2
  else
    squareUnderAttackRun s s.black_king_location.1 s.black_king_location.2

def inCheckB (s : GState) : Bool := (inCheckRun s).1

/-- `GameState.get_king_side_castling_moves` (`and` short-circuits: the
second attack test runs only if the first square is safe). -/
def getKingSideCastlingRun (s : GState) (r c : Int) (moves : List Move) :
    List Move × GState :=
  if bget s.board r (c + 1) == Sq.empty && bget s.board r (c + 2) == Sq.empty then
    let (a1, s1) := squareUnderAttackRun s r (c + 1)
    if !a1 then
      let (a2, s2) := squareUnderAttackRun s1 r (c + 2)
      if !a2 then (moves ++ [mkMove (r, c) (r, c + 2) s2.board false true none], s2)
      else (moves, s2)
    else (moves, s1)
  else (moves, s)

/-- `GameState.get_queen_side_castling_moves`. -/
def getQueenSideCastlingRun (s : GState) (r c : Int) (moves : List Move) :
    List Move × GState :=
  if bget s.board r (c - 1) == Sq.empty && bget s.board r (c - 2) == Sq.empty &&
      bget s.board r (c - 3) == Sq.empty then
    let (a1, s1) := squareUnderAttackRun s r (c - 1)
    if !a1 then
      let (a2, s2) := squareUnderAttackRun s1 r (c - 2)
      if !a2 then (moves ++ [mkMove (r, c) (r, c - 2) s2.board false true none], s2)
      else (moves, s2)
    else (moves, s1)
  else (moves, s)

/-- `GameState.get_castling_moves`. -/
def getCastlingMovesRun (s : GState) (r c : Int) (moves : List Move) :
    List Move × GState :=
  let (atk, s0) := squareUnderAttackRun s r c
  if atk then (moves, s0)
  else
    let (mv1, s1) :=
      if (s0.white_to_move && s0.castling_rights.white_king_side) ||
          (!s0.white_to_move && s0.castling_rights.black_king_side) then
        getKingSideCastlingRun s0 r c moves
      else (moves, s0)
    if (s1.white_to_move && s1.castling_rights.white_queen_side) ||
        (!s1.white_to_move && s1.castling_rights.black_queen_side) then
      getQueenSideCastlingRun s1 r c mv1
    else (mv1, s1)

/-- The pieces remaining on the board, in scan order
(`check_for_draw`, first loop). -/
def boardPieces (b : Board) : List Sq :=
  b.flatMap (fun row => row.filter (fun p => p != Sq.empty))

/-- All squares with coordinates, in scan order
(`check_for_draw`, second loop). -/
def boardSquares (b : Board) : List (Int × Int × Sq) :=
  (List.range b.length).flatMap (fun r =>
    (List.range (b.getD r []).length).flatMap (fun c =>
      [((r : Int), (c : Int), (b.getD r []).getD c Sq.empty)]))

/-- The four-piece scan of `check_for_draw`.  As soon as either bishop list
becomes non-empty, the source reads `white_bishops[0]` and
`black_bishops[0]`; if either list is still empty this raises `IndexError`,
modelled by `none`. -/
def drawScanFour : List (Int × Int × Sq) → List (Int × Int) → List (Int × Int) →
    Option Bool
  | [], _, _ => some false
  | (r, c, sq) :: rest, wbs, bbs =>
    let wbs' := if sq == wB then wbs ++ [(r, c)] else wbs
    let bbs' := if sq == bB then bbs ++ [(r, c)] else bbs
    if wbs'.length == 1 || bbs'.length == 1 then
      match wbs'.head?, bbs'.head? with
      | some w, some bb =>
        if (w.1 + w.2).emod 2 == (bb.1 + bb.2).emod 2 then some true
        else drawScanFour rest wbs' bbs'
      | _, _ => none
    else drawScanFour rest wbs' bbs'

/-- `GameState.check_for_draw`; `none` models the escaping `IndexError`. -/
def checkForDraw (b : Board) : Option Bool :=
  let pieces := boardPieces b
  if pieces.length == 2 then some true
  else if pieces.length == 3 &&
      (match pieces.find? (fun p => p.kind != some PieceKind.king) with
       | some p => p.kind == some PieceKind.knight || p.kind == some PieceKind.bishop
       | none => false) then
    some true
  else if pieces.length == 4 then drawScanFour (boardSquares b) [] []
  else some false

/-- `moves.remove(v)`: drop the first element equal (by `Move.__eq__`,
i.e. by `move_ID`) to `v`. -/
def removeFirstEq : List Move → Move → List Move
  | [], _ => []
  | x :: xs, m => if moveEqB x m then xs else x :: removeFirstEq xs m

/-- The legality filter of `get_valid_moves`:
`for i in range(len(moves) - 1, -1, -1)`, each iteration applying
`moves[i]`, flipping the turn, testing check, possibly removing the move,
flipping back and undoing. -/
def filterLoop : Nat → List Move → GState → List Move × GState
  | 0, moves, st => (moves, st)
  | i + 1, moves, st =>
    match moves[i]? with
    | none => filterLoop i moves st
    | some m =>
      let s1 := makeMove st m
      let s2 := { s1 with white_to_move := !s1.white_to_move }
      let (chk, s3) := inCheckRun s2
      let moves' := if chk then removeFirstEq moves m else moves
      let s4 := { s3 with white_to_move := !s3.white_to_move }
      let s5 := undoMove false s4
      filterLoop i moves' s5

/-- `GameState.get_valid_moves`; `none` models the `IndexError` escaping
from `check_for_draw`. -/
def getValidMoves (s : GState) : Option (List Move × GState) :=
  let tempEp := s.en_passant_possible
  let tempCr := s.castling_rights
  let mv0 := getAllPossibleMoves s
  let (mv1, sA) :=
    if s.white_to_move then
      getCastlingMovesRun s s.white_king_location.1 s.white_king_location.2 mv0
    else
      getCastlingMovesRun s s.black_king_location.1 s.black_king_location.2 mv0
  let (mv2, sB) := filterLoop mv1.length mv1 sA
  let sC :=
    if mv2.length == 0 then
      (let (chk, sB1) := inCheckRun sB
       if chk then { sB1 with checkmate := true } else { sB1 with stalemate := true })
    else { sB with checkmate := false, stalemate := false }
  match checkForDraw sC.board with
  | none => none
  | some d =>
    some (mv2, { sC with draw := d, en_passant_possible := tempEp, castling_rights := tempCr })

/-- The move list produced by `get_valid_moves` (empty if it raises). -/
def gvMoves (s : GState) : List Move :=
  match getValidMoves s with
  | some (mv, _) => mv
  | none => []

/-- The state left behind by `get_valid_moves` (unchanged if it raises). -/
def gvState (s : GState) : GState :=
  match getValidMoves s with
  | some (_, s') => s'
  | none => s

/-- A fresh user move in the main loop (`ChessMain.main`): after
`game_state.make_move(valid_moves[i])` the host executes
`game_state.redo_log = []`. -/
def applyNewMove (s : GState) (m : Move) : GState :=
  { makeMove s m with redo_log := [] }

/-- Positions reachable through the game's operations: the initial position,
a fresh legal move chosen from `get_valid_moves` (applied, as in the main
loop, to the state `get_valid_moves` left behind, followed by the redo-log
clear), an undo (the back button calls `undo_move()`), or a redo. -/
inductive Reachable : GState → Prop
  | init : Reachable initialState
  | step {s : GState} (m : Move) : Reachable s → m ∈ gvMoves s →
      Reachable (applyNewMove (gvState s) m)
  | undo {s : GState} : Reachable s → Reachable (undoMove true s)
  | redo {s : GState} : Reachable s → Reachable (redoMove s)

/-- Replay a list of moves, checking each against `get_valid_moves` of the
current position, exactly as a sequence of fresh user moves. -/
def replayChecked (s : GState) : List Move → Option GState
  | [] => some s
  | m :: ms =>
    match getValidMoves s with
    | none => none
    | some (mv, s') => if m ∈ mv then replayChecked (applyNewMove s' m) ms else none

/-! ### Concrete positions used by the analyses below -/

/-- An empty board row. -/
abbrev rowE : List Sq :=
  [.empty, .empty, .empty, .empty, .empty, .empty, .empty, .empty]

abbrev allCastling : Castling := ⟨true, true, true, true⟩

/-- The white pawn double step e2e4 (as generated from the initial board). -/
def mE2E4 : Move := ⟨6, 4, 4, 4, wp, .empty, false, false, none⟩

/-- The white pawn double step d2d4. -/
def mD2D4 : Move := ⟨6, 3, 4, 3, wp, .empty, false, false, none⟩

/-- The black knight move g8f6. -/
def c1Knight : Move := ⟨0, 6, 2, 5, bN, .empty, false, false, none⟩

/-- The position after 1. e2e4 (the state `get_valid_moves` has run on and
whose move list contains `c1Knight`). -/
def c1Pos : GState :=
  { board :=
      [[bR, bN, bB, bQ, bK, bB, bN, bR],
       [bp, bp, bp, bp, bp, bp, bp, bp],
       rowE, rowE,
       [.empty, .empty, .empty, .empty, wp, .empty, .empty, .empty],
       rowE,
       [wp, wp, wp, wp, .empty, wp, wp, wp],
       [wR, wN, wB, wQ, wK, wB, wN, wR]]
    white_to_move := false
    move_log := [mE2E4]
    redo_log := []
    white_king_location := (7, 4)
    black_king_location := (0, 4)
    checkmate := false
    stalemate := false
    draw := false
    en_passant_possible := some (5, 4)
    castling_rights := allCastling
    castling_log := [allCastling, allCastling]
    pawn_promotion := false
    promotion_square := none
    promotion_piece_color := none }

/-- The position after 1. e2e4, undone: the initial position except that
`redo_log` now holds the undone move. -/
def c6Pos : GState := { initialState with redo_log := [mE2E4] }

/-- The moves 1. b2b4 a7a5 2. b4xa5 h7h6 3. a5a6 h6h5 4. a6xb7 g7g5,
after which white has the promoting capture b7xa8 while black's g7g5
double step has just set the en-passant target. -/
def c4Moves : List Move :=
  [⟨6, 1, 4, 1, wp, .empty, false, false, none⟩,
   ⟨1, 0, 3, 0, bp, .empty, false, false, none⟩,
   ⟨4, 1, 3, 0, wp, bp, false, false, none⟩,
   ⟨1, 7, 2, 7, bp, .empty, false, false, none⟩,
   ⟨3, 0, 2, 0, wp, .empty, false, false, none⟩,
   ⟨2, 7, 3, 7, bp, .empty, false, false, none⟩,
   ⟨2, 0, 1, 1, wp, bp, false, false, none⟩,
   ⟨1, 6, 3, 6, bp, .empty, false, false, none⟩]

/-- The position reached by `c4Moves`. -/
def c4Pos : GState :=
  { board :=
      [[bR, bN, bB, bQ, bK, bB, bN, bR],
       [.empty, wp, bp, bp, bp, bp, .empty, .empty],
       rowE,
       [.empty, .empty, .empty, .empty, .empty, .empty, bp, bp],
       rowE, rowE,
       [wp, .empty, wp, wp, wp, wp, wp, wp],
       [wR, wN, wB, wQ, wK, wB, wN, wR]]
    white_to_move := true
    move_log := (c4Moves.reverse)
    redo_log := []
    white_king_location := (7, 4)
    black_king_location := (0, 4)
    checkmate := false
    stalemate := false
    draw := false
    en_passant_possible := some (2, 6)
    castling_rights := allCastling
    castling_log := [allCastling, allCastling, allCastling, allCastling, allCastling,
      allCastling, allCastling, allCastling, allCastling]
    pawn_promotion := false
    promotion_square := none
    promotion_piece_color := none }

/-- The promoting capture b7xa8 available in `c4Pos`. -/
def c4Promo : Move := ⟨1, 1, 0, 0, wp, bR, false, false, none⟩

/-- The moves 1. g2g3 b7b6 2. a2a3 c8b7 3. a3a4, after which black's
light-squared bishop can capture the never-moved rook on h1. -/
def c5Moves : List Move :=
  [⟨6, 6, 5, 6, wp, .empty, false, false, none⟩,
   ⟨1, 1, 2, 1, bp, .empty, false, false, none⟩,
   ⟨6, 0, 5, 0, wp, .empty, false, false, none⟩,
   ⟨0, 2, 1, 1, bB, .empty, false, false, none⟩,
   ⟨5, 0, 4, 0, wp, .empty, false, false, none⟩]

/-- The position reached by `c5Moves`. -/
def c5Pos : GState :=
  { board :=
      [[bR, bN, .empty, bQ, bK, bB, bN, bR],
       [bp, bB, bp, bp, bp, bp, bp, bp],
       [.empty, bp, .empty, .empty, .empty, .empty, .empty, .empty],
       rowE,
       [wp, .empty, .empty, .empty, .empty, .empty, .empty, .empty],
       [.empty, .empty, .empty, .empty, .empty, .empty, wp, .empty],
       [.empty, wp, wp, wp, wp, wp, .empty, wp],
       [wR, wN, wB, wQ, wK, wB, wN, wR]]
    white_to_move := false
    move_log := (c5Moves.reverse)
    redo_log := []
    white_king_location := (7, 4)
    black_king_location := (0, 4)
    checkmate := false
    stalemate := false
    draw := false
    en_passant_possible := none
    castling_rights := allCastling
    castling_log := [allCastling, allCastling, allCastling, allCastling, allCastling,
      allCastling]
    pawn_promotion := false
    promotion_square := none
    promotion_piece_color := none }

/-- The bishop capture b7xh1 available in `c5Pos`. -/
def c5RookCapture : Move := ⟨1, 1, 7, 7, bB, wR, false, false, none⟩

/-- A four-piece board, king and bishop each, bishops on same-colored
squares (parity of row + column is even for both). -/
def kbkbBoard : Board :=
  [[.empty, .empty, bK, .empty, .empty, .empty, .empty, .empty],
   [.empty, .empty, .empty, .empty, .empty, bB, .empty, .empty],
   rowE, rowE, rowE,
   [.empty, .empty, .empty, wB, .empty, .empty, .empty, .empty],
   rowE,
   [.empty, .empty, .empty, .empty, wK, .empty, .empty, .empty]]

/-- A game state whose board is `kbkbBoard`. -/
def kbkbState : GState :=
  { initialState with
    board := kbkbBoard
    white_king_location := (7, 4)
    black_king_location := (0, 2)
    castling_rights := ⟨false, false, false, false⟩
    castling_log := [⟨false, false, false, false⟩] }

/-- A position in which white has a deferred-promotion candidate move:
lone kings plus a white pawn one step from promotion. -/
def promoPos : GState :=
  { initialState with
    board :=
      [[.empty, .empty, .empty, .empty, bK, .empty, .empty, .empty],
       [wp, .empty, .empty, .empty, .empty, .empty, .empty, .empty],
       rowE, rowE, rowE, rowE, rowE,
       [.empty, .empty, .empty, .empty, wK, .empty, .empty, .empty]] }

/-- The color whose turn it is. -/
def mColor (wtm : Bool) : PieceColor :=
  if wtm then PieceColor.white else PieceColor.black

/-- The board is the 8 × 8 grid the source initialises and preserves. -/
def boardWF (b : Board) : Prop :=
  b.length = 8 ∧ ∀ row ∈ b, row.length = 8

/-- The en-passant field is consistent with the board: set only to the
square just passed over by the opponent's two-square pawn advance (which is
empty, with the advanced pawn beyond it). -/
def epOK (b : Board) (wtm : Bool) : Option (Int × Int) → Prop
  | none => True
  | some (er, ec) =>
    0 ≤ ec ∧ ec ≤ 7 ∧
    (if wtm then
      er = 2 ∧ bget b 2 ec = Sq.empty ∧ bget b 3 ec = bp
    else
      er = 5 ∧ bget b 5 ec = Sq.empty ∧ bget b 4 ec = wp)

/-- Well-formed game states: the 8 × 8 board carries exactly one king per
color, at the tracked king locations; the en-passant field is consistent;
and a side that still has a castling right has its king on the home
square.  All states reachable in normal play satisfy this. -/
def WF (s : GState) : Prop :=
  boardWF s.board ∧
  (0 ≤ s.white_king_location.1 ∧ s.white_king_location.1 ≤ 7 ∧
   0 ≤ s.white_king_location.2 ∧ s.white_king_location.2 ≤ 7) ∧
  (0 ≤ s.black_king_location.1 ∧ s.black_king_location.1 ≤ 7 ∧
   0 ≤ s.black_king_location.2 ∧ s.black_king_location.2 ≤ 7) ∧
  bget s.board s.white_king_location.1 s.white_king_location.2 = wK ∧
  bget s.board s.black_king_location.1 s.black_king_location.2 = bK ∧
  (∀ rn : Nat, rn < 8 → ∀ cn : Nat, cn < 8 →
    bget s.board rn cn = wK → ((rn : Int), (cn : Int)) = s.white_king_location) ∧
  (∀ rn : Nat, rn < 8 → ∀ cn : Nat, cn < 8 →
    bget s.board rn cn = bK → ((rn : Int), (cn : Int)) = s.black_king_location) ∧
  epOK s.board s.white_to_move s.en_passant_possible ∧
  ((s.castling_rights.white_king_side = true ∨ s.castling_rights.white_queen_side = true) →
    s.white_king_location = (7, 4)) ∧
  ((s.castling_rights.black_king_side = true ∨ s.castling_rights.black_queen_side = true) →
    s.black_king_location = (0, 4))

instance (b : Board) (wtm : Bool) : (o : Option (Int × Int)) → Decidable (epOK b wtm o)
  | none => .isTrue trivial
  | some (er, ec) => by unfold epOK; infer_instance

instance (s : GState) : Decidable (WF s) := by
  unfold WF boardWF
  infer_instance

/-- What the move generators guarantee about every move they produce, as a
function of the fields they read (board, side to move, en-passant target).
Used to prove that the apply/undo in the legality filter restores the
state. -/
structure MoveOK (b : Board) (wtm : Bool) (ep : Option (Int × Int)) (m : Move) : Prop where
  inR : 0 ≤ m.start_row ∧ m.start_row ≤ 7 ∧ 0 ≤ m.start_col ∧ m.start_col ≤ 7 ∧
    0 ≤ m.end_row ∧ m.end_row ≤ 7 ∧ 0 ≤ m.end_col ∧ m.end_col ≤ 7
  nesq : ¬(m.start_row = m.end_row ∧ m.start_col = m.end_col)
  pmEq : m.piece_moved = bget b m.start_row m.start_col
  promoNone : m.promotion_piece = none
  mover : m.piece_moved.color = some (mColor wtm)
  capt : m.piece_captured.color ≠ some (mColor wtm)
  captEq : m.is_en_passant_move = false → m.piece_captured = bget b m.end_row m.end_col
  epF : m.is_en_passant_move = true →
    ep = some (m.end_row, m.end_col) ∧ m.is_castling_move = false ∧
    m.piece_moved.kind = some PieceKind.pawn ∧
    (if wtm then m.start_row = m.end_row + 1 else m.start_row = m.end_row - 1) ∧
    (m.start_col = m.end_col + 1 ∨ m.start_col = m.end_col - 1) ∧
    m.piece_captured = (if wtm then bp else wp)
  castleF : m.is_castling_move = true →
    m.end_row = m.start_row ∧ m.start_col = 4 ∧ m.is_en_passant_move = false ∧
    m.piece_moved.kind = some PieceKind.king ∧
    ((m.end_col = 6 ∧ bget b m.start_row 5 = Sq.empty ∧ bget b m.start_row 6 = Sq.empty) ∨
     (m.end_col = 2 ∧ bget b m.start_row 1 = Sq.empty ∧ bget b m.start_row 2 = Sq.empty ∧
      bget b m.start_row 3 = Sq.empty))
  pawnF : m.piece_moved.kind = some PieceKind.pawn →
    ((m.start_row - m.end_row).natAbs = 1 ∨
     (m.start_col = m.end_col ∧
      ((wtm = true ∧ m.start_row = 6 ∧ m.end_row = 4) ∨
       (wtm = false ∧ m.start_row = 1 ∧ m.end_row = 3))))

/-- Coordinates of a move all lie on the board. -/
def coordsInRange (m : Move) : Prop :=
  0 ≤ m.start_row ∧ m.start_row ≤ 7 ∧ 0 ≤ m.start_col ∧ m.start_col ≤ 7 ∧
  0 ≤ m.end_row ∧ m.end_row ≤ 7 ∧ 0 ≤ m.end_col ∧ m.end_col ≤ 7

instance (m : Move) : Decidable (coordsInRange m) := by
  unfold coordsInRange; infer_instance

/-- The loop invariant of the legality filter: everything `undo_move`
restores agrees with the entry state `s`; the en-passant field is either
still the entry value or cleared. -/
def LoopInv (s st : GState) : Prop :=
  st.board = s.board ∧ st.white_to_move = s.white_to_move ∧
  st.white_king_location = s.white_king_location ∧
  st.black_king_location = s.black_king_location ∧
  st.move_log = s.move_log ∧ st.redo_log = s.redo_log ∧
  (st.en_passant_possible = s.en_passant_possible ∨ st.en_passant_possible = none)

/-- The boolean result of `square_under_attack`. -/
def suAttackB (s : GState) (r c : Int) : Bool :=
  (squareUnderAttackRun s r c).1

/-- The candidate list of `get_valid_moves` before the legality filter:
all pseudo-legal moves plus the castling moves of the side to move. -/
def gvCandidates (s : GState) : List Move :=
  (if s.white_to_move then
    getCastlingMovesRun s s.white_king_location.1 s.white_king_location.2
      (getAllPossibleMoves s)
  else
    getCastlingMovesRun s s.black_king_location.1 s.black_king_location.2
      (getAllPossibleMoves s)).1

theorem replayChecked_reachable {s t : GState} :
    ∀ {ms : List Move}, replayChecked s ms = some t → Reachable s → Reachable t := by
  intro ms
  induction ms generalizing s with
  | nil => intro h hs; simp [replayChecked] at h; exact h ▸ hs
  | cons m ms ih =>
    intro h hs
    unfold replayChecked at h
    cases hgv : getValidMoves s with
    | none => rw [hgv] at h; exact absurd h (by simp)
    | some p =>
      rw [hgv] at h
      by_cases hm : m ∈ p.1
      · simp only [hm, if_pos] at h
        have hstep : Reachable (applyNewMove (gvState s) m) :=
          Reachable.step m hs (by simp [gvMoves, hgv, hm])
        have : gvState s = p.2 := by simp [gvState, hgv]
        rw [this] at hstep
        exact ih h hstep
      · simp [hm] at h

/-! ### Replays certifying the concrete positions reachable -/

theorem replay_c1 : replayChecked initialState [mE2E4] = some c1Pos := by decide

theorem reachable_c1Pos : Reachable c1Pos :=
  replayChecked_reachable replay_c1 Reachable.init

theorem replay_c4 : replayChecked initialState c4Moves = some c4Pos := by decide

theorem reachable_c4Pos : Reachable c4Pos :=
  replayChecked_reachable replay_c4 Reachable.init

theorem replay_c5 : replayChecked initialState c5Moves = some c5Pos := by decide

theorem reachable_c5Pos : Reachable c5Pos :=
  replayChecked_reachable replay_c5 Reachable.init

theorem undo_c1_eq : undoMove true c1Pos = c6Pos := by decide

theorem reachable_c6Pos : Reachable c6Pos :=
  undo_c1_eq ▸ Reachable.undo reachable_c1Pos

/-! ### Board access algebra -/

theorem bget_natCast (b : Board) (rn cn : Nat) :
    bget b (rn : Int) (cn : Int) = (b.getD rn []).getD cn Sq.empty := by
  simp [bget]

theorem bget_neg {b : Board} {r c : Int} (h : ¬(0 ≤ r ∧ 0 ≤ c)) :
    bget b r c = Sq.empty := by
  simp only [bget, if_neg h]

theorem bset_neg {b : Board} {r c : Int} {v : Sq} (h : ¬(0 ≤ r ∧ 0 ≤ c)) :
    bset b r c v = b := by
  simp only [bset, if_neg h]

theorem bget_bset_eq {b : Board} (hb : boardWF b) {r c : Int}
    (hr0 : 0 ≤ r) (hr7 : r ≤ 7) (hc0 : 0 ≤ c) (hc7 : c ≤ 7) (v : Sq) :
    bget (bset b r c v) r c = v := by
  obtain ⟨hlen, hrows⟩ := hb
  have hrn : r.toNat < b.length := by omega
  have hrow : (b.getD r.toNat []).length = 8 := by
    rw [List.getD_eq_getElem b [] hrn]
    exact hrows _ (List.getElem_mem hrn)
  have hcn : c.toNat < (b.getD r.toNat []).length := by omega
  unfold bget bset
  rw [if_pos ⟨hr0, hc0⟩, if_pos ⟨hr0, hc0⟩]
  rw [List.getD_eq_getElem?_getD (b.set r.toNat ((b.getD r.toNat []).set c.toNat v)),
    List.getElem?_set_self hrn, Option.getD_some]
  rw [List.getD_eq_getElem?_getD ((b.getD r.toNat []).set c.toNat v),
    List.getElem?_set_self hcn, Option.getD_some]

theorem bget_bset_ne {b : Board} {r c r' c' : Int} (h : ¬(r' = r ∧ c' = c)) (v : Sq) :
    bget (bset b r' c' v) r c = bget b r c := by
  by_cases hw : 0 ≤ r' ∧ 0 ≤ c'
  · by_cases hg : 0 ≤ r ∧ 0 ≤ c
    · obtain ⟨hr'0, hc'0⟩ := hw
      obtain ⟨hr0, hc0⟩ := hg
      unfold bget bset
      rw [if_pos ⟨hr0, hc0⟩, if_pos ⟨hr'0, hc'0⟩]
      by_cases hrr : r'.toNat = r.toNat
      · have hr'r : r' = r := by omega
        have hcc : c'.toNat ≠ c.toNat := by
          intro hceq
          exact h ⟨hr'r, by omega⟩
        rw [List.getD_eq_getElem?_getD (List.set b r'.toNat _), List.getElem?_set,
          if_pos hrr]
        by_cases hlt : r'.toNat < b.length
        · rw [if_pos hlt, Option.getD_some]
          rw [List.getD_eq_getElem?_getD ((b.getD r'.toNat []).set c'.toNat v),
            List.getElem?_set, if_neg hcc, hr'r, ← List.getD_eq_getElem?_getD,
            if_pos ⟨hr0, hc0⟩]
        · rw [if_neg hlt, Option.getD_none]
          rw [List.getD_eq_getElem?_getD b, List.getElem?_eq_none (by omega),
            Option.getD_none, if_pos ⟨hr0, hc0⟩]
      · rw [List.getD_eq_getElem?_getD (List.set b r'.toNat _), List.getElem?_set,
          if_neg hrr, ← List.getD_eq_getElem?_getD, if_pos ⟨hr0, hc0⟩]
    · rw [bget_neg hg, bget_neg hg]
  · rw [bset_neg hw]

theorem boardWF_bset {b : Board} (hb : boardWF b) (r c : Int) (v : Sq) :
    boardWF (bset b r c v) := by
  obtain ⟨hlen, hrows⟩ := hb
  unfold bset
  by_cases hw : 0 ≤ r ∧ 0 ≤ c
  · rw [if_pos hw]
    by_cases hlt : r.toNat < b.length
    · refine ⟨by simpa using hlen, ?_⟩
      intro row hrow
      rcases List.mem_or_eq_of_mem_set hrow with hmem | heq
      · exact hrows _ hmem
      · subst heq
        rw [List.length_set, List.getD_eq_getElem b [] hlt]
        exact hrows _ (List.getElem_mem hlt)
    · rw [List.set_eq_of_length_le (by omega)]
      exact ⟨hlen, hrows⟩
  · rw [if_neg hw]
    exact ⟨hlen, hrows⟩

theorem board_ext {b1 b2 : Board} (h1 : boardWF b1) (h2 : boardWF b2)
    (h : ∀ rn cn : Nat, rn < 8 → cn < 8 →
      bget b1 (rn : Int) (cn : Int) = bget b2 (rn : Int) (cn : Int)) : b1 = b2 := by
  obtain ⟨hl1, hr1⟩ := h1
  obtain ⟨hl2, hr2⟩ := h2
  apply List.ext_getElem?
  intro n
  by_cases hn : n < 8
  · have hn1 : n < b1.length := by omega
    have hn2 : n < b2.length := by omega
    rw [List.getElem?_eq_getElem hn1, List.getElem?_eq_getElem hn2]
    have e1 : b1[n].length = 8 := hr1 _ (List.getElem_mem hn1)
    have e2 : b2[n].length = 8 := hr2 _ (List.getElem_mem hn2)
    congr 1
    apply List.ext_getElem?
    intro cm
    by_cases hc : cm < 8
    · rw [List.getElem?_eq_getElem (by omega), List.getElem?_eq_getElem (by omega)]
      have hval := h n cm hn hc
      rw [bget_natCast, bget_natCast, List.getD_eq_getElem b1 [] hn1,
        List.getD_eq_getElem b2 [] hn2,
        List.getD_eq_getElem _ _ (show cm < b1[n].length by omega),
        List.getD_eq_getElem _ _ (show cm < b2[n].length by omega)] at hval
      rw [hval]
    · rw [List.getElem?_eq_none (by omega), List.getElem?_eq_none (by omega)]
  · rw [List.getElem?_eq_none (by omega), List.getElem?_eq_none (by omega)]

/-! ### Facts about generated moves -/

theorem promo_not_two {b : Board} {wtm : Bool} {epo : Option (Int × Int)} {m : Move}
    (hOK : MoveOK b wtm epo m) (hp : m.is_pawn_promotion = true) :
    m.isTwoSquarePawn = false := by
  have hpm : (m.piece_moved = wp ∧ m.end_row = 0) ∨ (m.piece_moved = bp ∧ m.end_row = 7) := by
    simpa [Move.is_pawn_promotion] using hp
  have hkind : m.piece_moved.kind = some PieceKind.pawn := by
    rcases hpm with ⟨h, _⟩ | ⟨h, _⟩ <;> simp [h, Sq.kind]
  rcases hOK.pawnF hkind with h1 | ⟨_, h2⟩
  · simp only [Move.isTwoSquarePawn, Bool.and_eq_false_imp]
    intro _
    simp [h1]
  · rcases hpm with ⟨_, h⟩ | ⟨_, h⟩ <;> rcases h2 with ⟨_, _, h'⟩ | ⟨_, _, h'⟩ <;> omega

theorem ep_not_two {b : Board} {wtm : Bool} {epo : Option (Int × Int)} {m : Move}
    (hOK : MoveOK b wtm epo m) (he : m.is_en_passant_move = true) :
    m.isTwoSquarePawn = false := by
  obtain ⟨_, _, _, hrow, _, _⟩ := hOK.epF he
  simp only [Move.isTwoSquarePawn, Bool.and_eq_false_imp]
  intro _
  cases wtm <;> simp at hrow <;> simp <;> omega

theorem ep_not_promo {b : Board} {wtm : Bool} {epo : Option (Int × Int)} {m : Move}
    (hOK : MoveOK b wtm epo m) (hep : epOK b wtm epo) (he : m.is_en_passant_move = true) :
    m.is_pawn_promotion = false := by
  obtain ⟨hsome, _, _, _, _, _⟩ := hOK.epF he
  rw [hsome] at hep
  unfold epOK at hep
  obtain ⟨_, _, hrc⟩ := hep
  simp only [Move.is_pawn_promotion, Bool.or_eq_false_iff, Bool.and_eq_false_imp]
  cases wtm <;> simp at hrc <;> constructor <;> intro <;> simp <;> omega

theorem castle_not_promo {b : Board} {wtm : Bool} {epo : Option (Int × Int)} {m : Move}
    (hOK : MoveOK b wtm epo m) (hc : m.is_castling_move = true) :
    m.is_pawn_promotion = false := by
  obtain ⟨_, _, _, hkind, _⟩ := hOK.castleF hc
  have : m.piece_moved ≠ wp ∧ m.piece_moved ≠ bp := by
    constructor <;> intro h <;> rw [h] at hkind <;> simp [Sq.kind] at hkind
  simp [Move.is_pawn_promotion, this.1, this.2]

theorem castle_not_two {b : Board} {wtm : Bool} {epo : Option (Int × Int)} {m : Move}
    (hOK : MoveOK b wtm epo m) (hc : m.is_castling_move = true) :
    m.isTwoSquarePawn = false := by
  obtain ⟨_, _, _, hkind, _⟩ := hOK.castleF hc
  simp [Move.isTwoSquarePawn, hkind]

theorem promo_not_castle {b : Board} {wtm : Bool} {epo : Option (Int × Int)} {m : Move}
    (hOK : MoveOK b wtm epo m) (hp : m.is_pawn_promotion = true) :
    m.is_castling_move = false := by
  by_contra hc
  rw [castle_not_promo hOK (by revert hc; cases m.is_castling_move <;> simp)] at hp
  exact absurd hp (by simp)

theorem promo_not_ep {b : Board} {wtm : Bool} {epo : Option (Int × Int)} {m : Move}
    (hOK : MoveOK b wtm epo m) (hep : epOK b wtm epo) (hp : m.is_pawn_promotion = true) :
    m.is_en_passant_move = false := by
  by_contra he
  rw [ep_not_promo hOK hep (by revert he; cases m.is_en_passant_move <;> simp)] at hp
  exact absurd hp (by simp)

theorem wk_start {s : GState} {m : Move} (hWF : WF s)
    (hOK : MoveOK s.board s.white_to_move s.en_passant_possible m)
    (hK : m.piece_moved = wK) :
    (m.start_row, m.start_col) = s.white_king_location := by
  obtain ⟨hdim, _, _, _, _, hwkU, _, _, _, _⟩ := hWF
  obtain ⟨h1, h2, h3, h4, _, _, _, _⟩ := hOK.inR
  have hbg : bget s.board m.start_row m.start_col = wK := by rw [← hOK.pmEq, hK]
  have hc := hwkU m.start_row.toNat (by omega) m.start_col.toNat (by omega)
    (by rwa [Int.toNat_of_nonneg h1, Int.toNat_of_nonneg h3])
  rw [← hc]
  congr 1 <;> omega

theorem bk_start {s : GState} {m : Move} (hWF : WF s)
    (hOK : MoveOK s.board s.white_to_move s.en_passant_possible m)
    (hK : m.piece_moved = bK) :
    (m.start_row, m.start_col) = s.black_king_location := by
  obtain ⟨hdim, _, _, _, _, _, hbkU, _, _, _⟩ := hWF
  obtain ⟨h1, h2, h3, h4, _, _, _, _⟩ := hOK.inR
  have hbg : bget s.board m.start_row m.start_col = bK := by rw [← hOK.pmEq, hK]
  have hc := hbkU m.start_row.toNat (by omega) m.start_col.toNat (by omega)
    (by rwa [Int.toNat_of_nonneg h1, Int.toNat_of_nonneg h3])
  rw [← hc]
  congr 1 <;> omega

/-! ### `make_move` field characterizations -/

theorem makeMove_move_log (st : GState) (m : Move) :
    (makeMove st m).move_log = m :: st.move_log := by
  unfold makeMove
  by_cases hp : m.is_pawn_promotion = true
  · cases hpp : m.promotion_piece
    · simp [hp, hpp]
    · cases hc : m.piece_moved.color <;> simp [hp, hpp, hc]
  · simp [hp]

theorem makeMove_wtm (st : GState) (m : Move) :
    (makeMove st m).white_to_move = !st.white_to_move := by
  unfold makeMove
  by_cases hp : m.is_pawn_promotion = true
  · cases hpp : m.promotion_piece
    · simp [hp, hpp]
    · cases hc : m.piece_moved.color <;> simp [hp, hpp, hc]
  · simp [hp]

theorem makeMove_redo_log (st : GState) (m : Move) :
    (makeMove st m).redo_log = st.redo_log := by
  unfold makeMove
  by_cases hp : m.is_pawn_promotion = true
  · cases hpp : m.promotion_piece
    · simp [hp, hpp]
    · cases hc : m.piece_moved.color <;> simp [hp, hpp, hc]
  · simp [hp]

theorem makeMove_wk (st : GState) (m : Move) :
    (makeMove st m).white_king_location =
      (if m.piece_moved == wK then (m.end_row, m.end_col) else st.white_king_location) := by
  unfold makeMove
  by_cases hp : m.is_pawn_promotion = true
  · cases hpp : m.promotion_piece
    · simp [hp, hpp]
    · cases hc : m.piece_moved.color <;> simp [hp, hpp, hc]
  · simp [hp]

theorem makeMove_bk (st : GState) (m : Move) :
    (makeMove st m).black_king_location =
      (if m.piece_moved == bK then (m.end_row, m.end_col) else st.black_king_location) := by
  unfold makeMove
  by_cases hp : m.is_pawn_promotion = true
  · cases hpp : m.promotion_piece
    · simp [hp, hpp]
    · cases hc : m.piece_moved.color <;> simp [hp, hpp, hc]
  · simp [hp]

theorem makeMove_board_nonspecial (st : GState) (m : Move)
    (hpp : m.promotion_piece = none)
    (hep : m.is_en_passant_move = false) (hcst : m.is_castling_move = false) :
    (makeMove st m).board =
      bset (bset st.board m.start_row m.start_col Sq.empty) m.end_row m.end_col
        m.piece_moved := by
  unfold makeMove
  by_cases hp : m.is_pawn_promotion = true
  · simp [hp, hpp]
  · simp [hp, hep, hcst]

theorem makeMove_board_ep (st : GState) (m : Move)
    (hp : m.is_pawn_promotion = false) (hep : m.is_en_passant_move = true)
    (hcst : m.is_castling_move = false) :
    (makeMove st m).board =
      bset (bset (bset st.board m.start_row m.start_col Sq.empty) m.end_row m.end_col
        m.piece_moved) m.start_row m.end_col Sq.empty := by
  unfold makeMove
  simp [hp, hep, hcst]

theorem makeMove_board_castle (st : GState) (m : Move)
    (hp : m.is_pawn_promotion = false) (hep : m.is_en_passant_move = false)
    (hcst : m.is_castling_move = true) :
    (makeMove st m).board =
      (let b2 := bset (bset st.board m.start_row m.start_col Sq.empty) m.end_row m.end_col
        m.piece_moved
      if m.end_col - m.start_col = 2 then
        bset (bset b2 m.end_row (m.end_col - 1) (bget b2 m.end_row (m.end_col + 1)))
          m.end_row (m.end_col + 1) Sq.empty
      else
        bset (bset b2 m.end_row (m.end_col + 1) (bget b2 m.end_row (m.end_col - 2)))
          m.end_row (m.end_col - 2) Sq.empty) := by
  unfold makeMove
  simp [hp, hep, hcst]

theorem makeMove_ep_nonpromo (st : GState) (m : Move)
    (hp : m.is_pawn_promotion = false) :
    (makeMove st m).en_passant_possible =
      (if m.isTwoSquarePawn = true
       then some ((m.start_row + m.end_row).fdiv 2, m.start_col) else none) := by
  unfold makeMove
  simp [hp]

theorem makeMove_ep_promo (st : GState) (m : Move)
    (hp : m.is_pawn_promotion = true) (hpp : m.promotion_piece = none) :
    (makeMove st m).en_passant_possible = st.en_passant_possible := by
  unfold makeMove
  simp [hp, hpp]

/-! ### Board round trips for each move shape -/

theorem restore_board_plain (b : Board) (hWFb : boardWF b) (sr sc er ec : Int)
    (hsr0 : 0 ≤ sr) (hsr7 : sr ≤ 7) (hsc0 : 0 ≤ sc) (hsc7 : sc ≤ 7)
    (her0 : 0 ≤ er) (her7 : er ≤ 7) (hec0 : 0 ≤ ec) (hec7 : ec ≤ 7)
    (pm pc : Sq) (hpm : pm = bget b sr sc) (hpc : pc = bget b er ec) :
    bset (bset (bset (bset b sr sc Sq.empty) er ec pm) sr sc pm) er ec pc = b := by
  have w1 := boardWF_bset hWFb sr sc Sq.empty
  have w2 := boardWF_bset w1 er ec pm
  have w3 := boardWF_bset w2 sr sc pm
  apply board_ext (boardWF_bset w3 er ec pc) hWFb
  intro rn cn hrn hcn
  by_cases hE : er = (rn : Int) ∧ ec = (cn : Int)
  · obtain ⟨h1, h2⟩ := hE
    rw [← h1, ← h2, bget_bset_eq w3 her0 her7 hec0 hec7, hpc]
  · rw [bget_bset_ne hE]
    by_cases hS : sr = (rn : Int) ∧ sc = (cn : Int)
    · obtain ⟨h1, h2⟩ := hS
      rw [← h1, ← h2, bget_bset_eq w2 hsr0 hsr7 hsc0 hsc7, hpm]
    · rw [bget_bset_ne hS, bget_bset_ne hE, bget_bset_ne hS]

theorem restore_board_ep (b : Board) (hWFb : boardWF b) (sr sc er ec : Int)
    (hsr0 : 0 ≤ sr) (hsr7 : sr ≤ 7) (hsc0 : 0 ≤ sc) (hsc7 : sc ≤ 7)
    (her0 : 0 ≤ er) (her7 : er ≤ 7) (hec0 : 0 ≤ ec) (hec7 : ec ≤ 7)
    (pm pc : Sq) (hpm : pm = bget b sr sc) (hcap : bget b sr ec = pc)
    (hemp : bget b er ec = Sq.empty) :
    bset (bset (bset (bset (bset (bset (bset b sr sc Sq.empty) er ec pm) sr ec Sq.empty)
      sr sc pm) er ec pc) er ec Sq.empty) sr ec pc = b := by
  have w1 := boardWF_bset hWFb sr sc Sq.empty
  have w2 := boardWF_bset w1 er ec pm
  have w3 := boardWF_bset w2 sr ec Sq.empty
  have w4 := boardWF_bset w3 sr sc pm
  have w5 := boardWF_bset w4 er ec pc
  have w6 := boardWF_bset w5 er ec Sq.empty
  apply board_ext (boardWF_bset w6 sr ec pc) hWFb
  intro rn cn hrn hcn
  by_cases hC : sr = (rn : Int) ∧ ec = (cn : Int)
  · obtain ⟨h1, h2⟩ := hC
    rw [← h1, ← h2, bget_bset_eq w6 hsr0 hsr7 hec0 hec7, hcap]
  · rw [bget_bset_ne hC]
    by_cases hE : er = (rn : Int) ∧ ec = (cn : Int)
    · obtain ⟨h1, h2⟩ := hE
      rw [← h1, ← h2, bget_bset_eq w5 her0 her7 hec0 hec7, hemp]
    · rw [bget_bset_ne hE, bget_bset_ne hE]
      by_cases hS : sr = (rn : Int) ∧ sc = (cn : Int)
      · obtain ⟨h1, h2⟩ := hS
        rw [← h1, ← h2, bget_bset_eq w3 hsr0 hsr7 hsc0 hsc7, hpm]
      · rw [bget_bset_ne hS, bget_bset_ne hC, bget_bset_ne hE, bget_bset_ne hS]

theorem restore_board_castleK (b : Board) (hWFb : boardWF b) (r : Int)
    (hr0 : 0 ≤ r) (hr7 : r ≤ 7) (pm pc : Sq)
    (hpm : pm = bget b r 4) (hpc : pc = bget b r 6) (h5 : bget b r 5 = Sq.empty) :
    (let w : Board := bset (bset b r 4 Sq.empty) r 6 pm
     let mb : Board := bset (bset w r 5 (bget w r 7)) r 7 Sq.empty
     let b1 : Board := bset (bset mb r 4 pm) r 6 pc
     bset (bset b1 r 7 (bget b1 r 5)) r 5 Sq.empty) = b := by
  have w1 := boardWF_bset hWFb r 4 Sq.empty
  have w2 := boardWF_bset w1 r 6 pm
  have hw7 : bget (bset (bset b r 4 Sq.empty) r 6 pm) r 7 = bget b r 7 := by
    rw [bget_bset_ne (by omega), bget_bset_ne (by omega)]
  simp only [hw7]
  have w3 := boardWF_bset w2 r 5 (bget b r 7)
  have w4 := boardWF_bset w3 r 7 Sq.empty
  have w5 := boardWF_bset w4 r 4 pm
  have w6 := boardWF_bset w5 r 6 pc
  have hb15 : bget (bset (bset (bset (bset (bset (bset b r 4 Sq.empty) r 6 pm)
      r 5 (bget b r 7)) r 7 Sq.empty) r 4 pm) r 6 pc) r 5 = bget b r 7 := by
    rw [bget_bset_ne (by omega), bget_bset_ne (by omega), bget_bset_ne (by omega),
      bget_bset_eq w2 hr0 hr7 (by omega) (by omega)]
  simp only [hb15]
  have w7 := boardWF_bset w6 r 7 (bget b r 7)
  apply board_ext (boardWF_bset w7 r 5 Sq.empty) hWFb
  intro rn cn hrn hcn
  by_cases h5p : r = (rn : Int) ∧ (5 : Int) = (cn : Int)
  · obtain ⟨h1, h2⟩ := h5p
    rw [← h1, ← h2, bget_bset_eq w7 hr0 hr7 (by omega) (by omega), h5]
  · rw [bget_bset_ne h5p]
    by_cases h7p : r = (rn : Int) ∧ (7 : Int) = (cn : Int)
    · obtain ⟨h1, h2⟩ := h7p
      rw [← h1, ← h2, bget_bset_eq w6 hr0 hr7 (by omega) (by omega)]
    · rw [bget_bset_ne h7p]
      by_cases h6p : r = (rn : Int) ∧ (6 : Int) = (cn : Int)
      · obtain ⟨h1, h2⟩ := h6p
        rw [← h1, ← h2, bget_bset_eq w5 hr0 hr7 (by omega) (by omega), hpc]
      · rw [bget_bset_ne h6p]
        by_cases h4p : r = (rn : Int) ∧ (4 : Int) = (cn : Int)
        · obtain ⟨h1, h2⟩ := h4p
          rw [← h1, ← h2, bget_bset_eq w4 hr0 hr7 (by omega) (by omega), hpm]
        · rw [bget_bset_ne h4p, bget_bset_ne h7p, bget_bset_ne h5p,
            bget_bset_ne h6p, bget_bset_ne h4p]

theorem restore_board_castleQ (b : Board) (hWFb : boardWF b) (r : Int)
    (hr0 : 0 ≤ r) (hr7 : r ≤ 7) (pm pc : Sq)
    (hpm : pm = bget b r 4) (hpc : pc = bget b r 2) (h3 : bget b r 3 = Sq.empty) :
    (let w : Board := bset (bset b r 4 Sq.empty) r 2 pm
     let mb : Board := bset (bset w r 3 (bget w r 0)) r 0 Sq.empty
     let b1 : Board := bset (bset mb r 4 pm) r 2 pc
     bset (bset b1 r 0 (bget b1 r 3)) r 3 Sq.empty) = b := by
  have w1 := boardWF_bset hWFb r 4 Sq.empty
  have w2 := boardWF_bset w1 r 2 pm
  have hw0 : bget (bset (bset b r 4 Sq.empty) r 2 pm) r 0 = bget b r 0 := by
    rw [bget_bset_ne (by omega), bget_bset_ne (by omega)]
  simp only [hw0]
  have w3 := boardWF_bset w2 r 3 (bget b r 0)
  have w4 := boardWF_bset w3 r 0 Sq.empty
  have w5 := boardWF_bset w4 r 4 pm
  have w6 := boardWF_bset w5 r 2 pc
  have hb13 : bget (bset (bset (bset (bset (bset (bset b r 4 Sq.empty) r 2 pm)
      r 3 (bget b r 0)) r 0 Sq.empty) r 4 pm) r 2 pc) r 3 = bget b r 0 := by
    rw [bget_bset_ne (by omega), bget_bset_ne (by omega), bget_bset_ne (by omega),
      bget_bset_eq w2 hr0 hr7 (by omega) (by omega)]
  simp only [hb13]
  have w7 := boardWF_bset w6 r 0 (bget b r 0)
  apply board_ext (boardWF_bset w7 r 3 Sq.empty) hWFb
  intro rn cn hrn hcn
  by_cases h3p : r = (rn : Int) ∧ (3 : Int) = (cn : Int)
  · obtain ⟨h1, h2⟩ := h3p
    rw [← h1, ← h2, bget_bset_eq w7 hr0 hr7 (by omega) (by omega), h3]
  · rw [bget_bset_ne h3p]
    by_cases h0p : r = (rn : Int) ∧ (0 : Int) = (cn : Int)
    · obtain ⟨h1, h2⟩ := h0p
      rw [← h1, ← h2, bget_bset_eq w6 hr0 hr7 (by omega) (by omega)]
    · rw [bget_bset_ne h0p]
      by_cases h2p : r = (rn : Int) ∧ (2 : Int) = (cn : Int)
      · obtain ⟨h1, h2⟩ := h2p
        rw [← h1, ← h2, bget_bset_eq w5 hr0 hr7 (by omega) (by omega), hpc]
      · rw [bget_bset_ne h2p]
        by_cases h4p : r = (rn : Int) ∧ (4 : Int) = (cn : Int)
        · obtain ⟨h1, h2⟩ := h4p
          rw [← h1, ← h2, bget_bset_eq w4 hr0 hr7 (by omega) (by omega), hpm]
        · rw [bget_bset_ne h4p, bget_bset_ne h0p, bget_bset_ne h3p,
            bget_bset_ne h2p, bget_bset_ne h4p]

/-! ### The apply/undo round trip inside the legality filter -/

theorem undo_make_restores (s st : GState) (m : Move)
    (hWF : WF s)
    (hOK : MoveOK s.board s.white_to_move s.en_passant_possible m)
    (hb : st.board = s.board)
    (hwk : st.white_king_location = s.white_king_location)
    (hbk : st.black_king_location = s.black_king_location) :
    (undoMove false (makeMove st m)).board = st.board ∧
    (undoMove false (makeMove st m)).white_to_move = st.white_to_move ∧
    (undoMove false (makeMove st m)).white_king_location = st.white_king_location ∧
    (undoMove false (makeMove st m)).black_king_location = st.black_king_location ∧
    (undoMove false (makeMove st m)).move_log = st.move_log ∧
    (undoMove false (makeMove st m)).redo_log = st.redo_log ∧
    (undoMove false (makeMove st m)).en_passant_possible =
      (if m.is_en_passant_move = true then s.en_passant_possible
       else if m.isTwoSquarePawn = true then none
       else if m.is_pawn_promotion = true then st.en_passant_possible
       else none) := by
  have hWFagain : WF s := hWF
  obtain ⟨hdim, hwk4, hbk4, hwkb, hbkb, hwkU, hbkU, hepOK, hcw, hcb⟩ := hWF
  have hWFst : boardWF st.board := by rw [hb]; exact hdim
  obtain ⟨hsr0, hsr7, hsc0, hsc7, her0, her7, hec0, hec7⟩ := hOK.inR
  have hml := makeMove_move_log st m
  refine ⟨?_, ?_, ?_, ?_, ?_, ?_, ?_⟩
  -- board
  · unfold undoMove
    simp only [hml]
    by_cases hp : m.is_pawn_promotion = true
    · have hepf := promo_not_ep hOK hepOK hp
      have hcstf := promo_not_castle hOK hp
      simp only [hepf, hcstf, Bool.false_eq_true, if_false,
        makeMove_board_nonspecial st m hOK.promoNone hepf hcstf]
      rw [hb]
      exact restore_board_plain s.board hdim _ _ _ _ hsr0 hsr7 hsc0 hsc7 her0 her7
        hec0 hec7 m.piece_moved m.piece_captured hOK.pmEq (hOK.captEq hepf)
    · have hpF : m.is_pawn_promotion = false := by simpa using hp
      by_cases hepm : m.is_en_passant_move = true
      · obtain ⟨hepSome, hcstf, hkind, hrowF, hcolF, hpcF⟩ := hOK.epF hepm
        simp only [hepm, hcstf, Bool.false_eq_true, if_false, if_true,
          makeMove_board_ep st m hpF hepm hcstf]
        rw [hb]
        rw [hepSome] at hepOK
        unfold epOK at hepOK
        obtain ⟨hc0', hc7', hrc⟩ := hepOK
        cases hw : s.white_to_move with
        | true =>
          rw [hw] at hrc hrowF hpcF
          simp only [if_true] at hrc hrowF hpcF
          obtain ⟨her2, hemp, hbpawn⟩ := hrc
          refine restore_board_ep s.board hdim _ _ _ _ hsr0 hsr7 hsc0 hsc7 her0 her7
            hec0 hec7 m.piece_moved m.piece_captured hOK.pmEq ?_ ?_
          · rw [hpcF, hrowF, her2]
            norm_num
            exact hbpawn
          · rw [her2]
            exact hemp
        | false =>
          rw [hw] at hrc hrowF hpcF
          simp only [Bool.false_eq_true, if_false] at hrc hrowF hpcF
          obtain ⟨her5, hemp, hwpawn⟩ := hrc
          refine restore_board_ep s.board hdim _ _ _ _ hsr0 hsr7 hsc0 hsc7 her0 her7
            hec0 hec7 m.piece_moved m.piece_captured hOK.pmEq ?_ ?_
          · rw [hpcF, hrowF, her5]
            norm_num
            exact hwpawn
          · rw [her5]
            exact hemp
      · have hepmF : m.is_en_passant_move = false := by simpa using hepm
        by_cases hcst : m.is_castling_move = true
        · obtain ⟨herow, hsc4, hepf', hkind, hside⟩ := hOK.castleF hcst
          have hpF' : m.is_pawn_promotion = false := castle_not_promo hOK hcst
          simp only [hepmF, hcst, Bool.false_eq_true, if_false, if_true,
            makeMove_board_castle st m hpF' hepmF hcst]
          rw [hb]
          rcases hside with ⟨hec6, h5, h6⟩ | ⟨hec2, h1, h2, h3⟩
          · have hpmArg : m.piece_moved = bget s.board m.start_row 4 := by
              rw [hOK.pmEq, hsc4]
            have hpcArg : m.piece_captured = bget s.board m.start_row 6 := by
              rw [hOK.captEq hepmF, herow, hec6]
            have hcond : m.end_col - m.start_col = 2 := by omega
            simp only [hcond, herow, hsc4, hec6]
            norm_num
            exact restore_board_castleK s.board hdim m.start_row hsr0 hsr7
              m.piece_moved m.piece_captured hpmArg hpcArg h5
          · have hpmArg : m.piece_moved = bget s.board m.start_row 4 := by
              rw [hOK.pmEq, hsc4]
            have hpcArg : m.piece_captured = bget s.board m.start_row 2 := by
              rw [hOK.captEq hepmF, herow, hec2]
            have hcond : (m.end_col - m.start_col = 2) = False := by
              simp
              omega
            simp only [hcond, herow, hsc4, hec2]
            norm_num
            exact restore_board_castleQ s.board hdim m.start_row hsr0 hsr7
              m.piece_moved m.piece_captured hpmArg hpcArg h3
        · have hcstF : m.is_castling_move = false := by simpa using hcst
          simp only [hepmF, hcstF, Bool.false_eq_true, if_false,
            makeMove_board_nonspecial st m hOK.promoNone hepmF hcstF]
          rw [hb]
          exact restore_board_plain s.board hdim _ _ _ _ hsr0 hsr7 hsc0 hsc7 her0 her7
            hec0 hec7 m.piece_moved m.piece_captured hOK.pmEq (hOK.captEq hepmF)
  -- white_to_move
  · unfold undoMove
    simp only [hml]
    simp [makeMove_wtm]
  -- white king location
  · unfold undoMove
    simp only [hml]
    by_cases hK : m.piece_moved = wK
    · simp only [makeMove_wk, hK, beq_self_eq_true, if_true]
      rw [hwk]
      exact wk_start hWFagain hOK hK
    · simp [makeMove_wk, hK]
  -- black king location
  · unfold undoMove
    simp only [hml]
    by_cases hK : m.piece_moved = bK
    · simp only [makeMove_bk, hK, beq_self_eq_true, if_true]
      rw [hbk]
      exact bk_start hWFagain hOK hK
    · simp [makeMove_bk, hK]
  -- move_log
  · unfold undoMove
    simp only [hml]
  -- redo_log
  · unfold undoMove
    simp only [hml]
    simp [makeMove_redo_log]
  -- en passant
  · unfold undoMove
    simp only [hml]
    by_cases hp : m.is_pawn_promotion = true
    · have hepf := promo_not_ep hOK hepOK hp
      have h2f := promo_not_two hOK hp
      simp [hepf, h2f, hp, makeMove_ep_promo st m hp hOK.promoNone]
    · have hpF : m.is_pawn_promotion = false := by simpa using hp
      by_cases hepm : m.is_en_passant_move = true
      · have h2f := ep_not_two hOK hepm
        obtain ⟨hepSome, _, _, _, _, _⟩ := hOK.epF hepm
        simp [hepm, h2f, hepSome]
      · by_cases h2 : m.isTwoSquarePawn = true
        · simp [hepm, h2, makeMove_ep_nonpromo st m hpF]
        · simp [hepm, h2, hpF, makeMove_ep_nonpromo st m hpF]

/-! ### State threading through attack tests and the filter loop -/

theorem squareUnderAttackRun_snd (s : GState) (r c : Int) :
    (squareUnderAttackRun s r c).2 = s := by
  cases s
  simp [squareUnderAttackRun]

theorem inCheckRun_snd (s : GState) : (inCheckRun s).2 = s := by
  unfold inCheckRun
  split
  · exact squareUnderAttackRun_snd _ _ _
  · exact squareUnderAttackRun_snd _ _ _

theorem squareUnderAttackRun_eta (s : GState) (r c : Int) :
    squareUnderAttackRun s r c = (suAttackB s r c, s) :=
  Prod.ext rfl (squareUnderAttackRun_snd s r c)

theorem inCheckRun_eta (s : GState) : inCheckRun s = (inCheckB s, s) :=
  Prod.ext rfl (inCheckRun_snd s)

theorem mem_of_getElem?_some {l : List Move} {n : Nat} {a : Move} (h : l[n]? = some a) :
    a ∈ l := by
  obtain ⟨hlt, rfl⟩ := List.getElem?_eq_some_iff.mp h
  exact List.getElem_mem hlt

theorem removeFirstEq_subset (l : List Move) (m : Move) :
    ∀ x ∈ removeFirstEq l m, x ∈ l := by
  induction l with
  | nil => intro x hx; simp [removeFirstEq] at hx
  | cons y ys ih =>
    intro x hx
    unfold removeFirstEq at hx
    by_cases hy : moveEqB y m
    · rw [if_pos hy] at hx
      exact List.mem_cons_of_mem _ hx
    · rw [if_neg hy] at hx
      rcases List.mem_cons.mp hx with rfl | hx'
      · exact List.mem_cons_self _ _
      · exact List.mem_cons_of_mem _ (ih x hx')

theorem filterLoop_cons (i : Nat) (moves : List Move) (st : GState) (m : Move)
    (h : moves[i]? = some m) :
    filterLoop (i + 1) moves st =
      filterLoop i
        (if inCheckB { makeMove st m with
            white_to_move := !(makeMove st m).white_to_move } then
          removeFirstEq moves m
        else moves)
        (undoMove false (makeMove st m)) := by
  conv_lhs => rw [filterLoop]
  rw [h]
  simp only [inCheckRun_eta]
  cases hst : makeMove st m
  simp [Bool.not_not]

theorem filterLoop_inv (s : GState) (hWF : WF s) :
    ∀ (i : Nat) (moves : List Move) (st : GState),
      (∀ m ∈ moves, MoveOK s.board s.white_to_move s.en_passant_possible m) →
      LoopInv s st →
      LoopInv s (filterLoop i moves st).2 ∧
      (∀ m ∈ (filterLoop i moves st).1, m ∈ moves) := by
  intro i
  induction i with
  | zero =>
    intro moves st hOKall hInv
    exact ⟨hInv, fun m hm => hm⟩
  | succ i ih =>
    intro moves st hOKall hInv
    cases hgm : moves[i]? with
    | none =>
      have : filterLoop (i + 1) moves st = filterLoop i moves st := by
        conv_lhs => rw [filterLoop]
        rw [hgm]
      rw [this]
      exact ih moves st hOKall hInv
    | some m =>
      rw [filterLoop_cons i moves st m hgm]
      have hOKm := hOKall m (mem_of_getElem?_some hgm)
      obtain ⟨hb, hwtm, hwk, hbk, hml', hrl, hepInv⟩ := hInv
      obtain ⟨hub, huw, huwk, hubk, huml, hurl, huep⟩ :=
        undo_make_restores s st m hWF hOKm hb hwk hbk
      have hInv' : LoopInv s (undoMove false (makeMove st m)) := by
        refine ⟨hub.trans hb, huw.trans hwtm, huwk.trans hwk, hubk.trans hbk,
          huml.trans hml', hurl.trans hrl, ?_⟩
        rw [huep]
        by_cases he : m.is_en_passant_move = true
        · simp [he]
        · simp only [he, Bool.false_eq_true, if_false]
          by_cases h2 : m.isTwoSquarePawn = true
          · simp [he, h2]
          · simp only [h2, Bool.false_eq_true, if_false]
            by_cases hp : m.is_pawn_promotion = true
            · simp only [hp, if_true]
              exact hepInv
            · simp [he, h2, hp]
      have hsub : ∀ x ∈ (if inCheckB { makeMove st m with
          white_to_move := !(makeMove st m).white_to_move } then
            removeFirstEq moves m else moves), x ∈ moves := by
        intro x hx
        by_cases hchk : inCheckB { makeMove st m with
          white_to_move := !(makeMove st m).white_to_move } = true
        · rw [if_pos hchk] at hx
          exact removeFirstEq_subset moves m x hx
        · rw [if_neg hchk] at hx
          exact hx
      have hOK' : ∀ x ∈ (if inCheckB { makeMove st m with
          white_to_move := !(makeMove st m).white_to_move } then
            removeFirstEq moves m else moves),
          MoveOK s.board s.white_to_move s.en_passant_possible x :=
        fun x hx => hOKall x (hsub x hx)
      obtain ⟨hi1, hi2⟩ := ih _ _ hOK' hInv'
      exact ⟨hi1, fun x hx => hsub x (hi2 x hx)⟩

/-! ### Castling-move generation: state restoration and member shapes -/

theorem getKingSideCastlingRun_snd (s : GState) (r c : Int) (mv : List Move) :
    (getKingSideCastlingRun s r c mv).2 = s := by
  unfold getKingSideCastlingRun
  simp only [squareUnderAttackRun_eta]
  split
  · split
    · split
      · rfl
      · rfl
    · rfl
  · rfl

theorem getQueenSideCastlingRun_snd (s : GState) (r c : Int) (mv : List Move) :
    (getQueenSideCastlingRun s r c mv).2 = s := by
  unfold getQueenSideCastlingRun
  simp only [squareUnderAttackRun_eta]
  split
  · split
    · split
      · rfl
      · rfl
    · rfl
  · rfl

theorem getCastlingMovesRun_snd (s : GState) (r c : Int) (mv : List Move) :
    (getCastlingMovesRun s r c mv).2 = s := by
  unfold getCastlingMovesRun
  simp only [squareUnderAttackRun_eta]
  split
  · rfl
  · have h1 : (if (s.white_to_move && s.castling_rights.white_king_side) ||
        (!s.white_to_move && s.castling_rights.black_king_side) then
          getKingSideCastlingRun s r c mv
        else (mv, s)) =
        ((if (s.white_to_move && s.castling_rights.white_king_side) ||
            (!s.white_to_move && s.castling_rights.black_king_side) then
            (getKingSideCastlingRun s r c mv).1
          else mv), s) := by
      split
      · exact Prod.ext rfl (getKingSideCastlingRun_snd s r c mv)
      · rfl
    simp only [h1]
    split
    · exact getQueenSideCastlingRun_snd _ _ _ _
    · rfl

theorem getKingSideCastlingRun_mem (s : GState) (r c : Int) (mv : List Move) :
    ∀ x ∈ (getKingSideCastlingRun s r c mv).1, x ∈ mv ∨
      (x = mkMove (r, c) (r, c + 2) s.board false true none ∧
       bget s.board r (c + 1) = Sq.empty ∧ bget s.board r (c + 2) = Sq.empty) := by
  intro x hx
  unfold getKingSideCastlingRun at hx
  simp only [squareUnderAttackRun_eta] at hx
  by_cases hg : (bget s.board r (c + 1) == Sq.empty && bget s.board r (c + 2) == Sq.empty) = true
  · rw [if_pos hg] at hx
    have hg' : bget s.board r (c + 1) = Sq.empty ∧ bget s.board r (c + 2) = Sq.empty := by
      simpa using hg
    split at hx
    · split at hx
      · rcases List.mem_append.mp hx with hmv | hone
        · exact Or.inl hmv
        · exact Or.inr ⟨List.mem_singleton.mp hone, hg'.1, hg'.2⟩
      · exact Or.inl hx
    · exact Or.inl hx
  · rw [if_neg hg] at hx
    exact Or.inl hx

theorem getQueenSideCastlingRun_mem (s : GState) (r c : Int) (mv : List Move) :
    ∀ x ∈ (getQueenSideCastlingRun s r c mv).1, x ∈ mv ∨
      (x = mkMove (r, c) (r, c - 2) s.board false true none ∧
       bget s.board r (c - 1) = Sq.empty ∧ bget s.board r (c - 2) = Sq.empty ∧
       bget s.board r (c - 3) = Sq.empty) := by
  intro x hx
  unfold getQueenSideCastlingRun at hx
  simp only [squareUnderAttackRun_eta] at hx
  by_cases hg : (bget s.board r (c - 1) == Sq.empty && bget s.board r (c - 2) == Sq.empty &&
      bget s.board r (c - 3) == Sq.empty) = true
  · rw [if_pos hg] at hx
    have hg' : bget s.board r (c - 1) = Sq.empty ∧ bget s.board r (c - 2) = Sq.empty ∧
        bget s.board r (c - 3) = Sq.empty := by
      simp at hg
      exact ⟨hg.1.1, hg.1.2, hg.2⟩
    split at hx
    · split at hx
      · rcases List.mem_append.mp hx with hmv | hone
        · exact Or.inl hmv
        · exact Or.inr ⟨List.mem_singleton.mp hone, hg'.1, hg'.2.1, hg'.2.2⟩
      · exact Or.inl hx
    · exact Or.inl hx
  · rw [if_neg hg] at hx
    exact Or.inl hx

theorem getCastlingMovesRun_mem (s : GState) (r c : Int) (mv : List Move) :
    ∀ x ∈ (getCastlingMovesRun s r c mv).1, x ∈ mv ∨
      (x = mkMove (r, c) (r, c + 2) s.board false true none ∧
       bget s.board r (c + 1) = Sq.empty ∧ bget s.board r (c + 2) = Sq.empty ∧
       ((s.white_to_move = true ∧ s.castling_rights.white_king_side = true) ∨
        (s.white_to_move = false ∧ s.castling_rights.black_king_side = true))) ∨
      (x = mkMove (r, c) (r, c - 2) s.board false true none ∧
       bget s.board r (c - 1) = Sq.empty ∧ bget s.board r (c - 2) = Sq.empty ∧
       bget s.board r (c - 3) = Sq.empty ∧
       ((s.white_to_move = true ∧ s.castling_rights.white_queen_side = true) ∨
        (s.white_to_move = false ∧ s.castling_rights.black_queen_side = true))) := by
  intro x hx
  unfold getCastlingMovesRun at hx
  simp only [squareUnderAttackRun_eta] at hx
  split at hx
  · exact Or.inl hx
  · have h1 : (if (s.white_to_move && s.castling_rights.white_king_side) ||
        (!s.white_to_move && s.castling_rights.black_king_side) then
          getKingSideCastlingRun s r c mv
        else (mv, s)) =
        ((if (s.white_to_move && s.castling_rights.white_king_side) ||
            (!s.white_to_move && s.castling_rights.black_king_side) then
            (getKingSideCastlingRun s r c mv).1
          else mv), s) := by
      split
      · exact Prod.ext rfl (getKingSideCastlingRun_snd s r c mv)
      · rfl
    simp only [h1] at hx
    have hks : ∀ y ∈ (if (s.white_to_move && s.castling_rights.white_king_side) ||
        (!s.white_to_move && s.castling_rights.black_king_side) then
          (getKingSideCastlingRun s r c mv).1
        else mv), y ∈ mv ∨
        (y = mkMove (r, c) (r, c + 2) s.board false true none ∧
         bget s.board r (c + 1) = Sq.empty ∧ bget s.board r (c + 2) = Sq.empty ∧
         ((s.white_to_move = true ∧ s.castling_rights.white_king_side = true) ∨
          (s.white_to_move = false ∧ s.castling_rights.black_king_side = true))) := by
      intro y hy
      by_cases hcond : ((s.white_to_move && s.castling_rights.white_king_side) ||
          (!s.white_to_move && s.castling_rights.black_king_side)) = true
      · rw [if_pos hcond] at hy
        rcases getKingSideCastlingRun_mem s r c mv y hy with h | ⟨he, h1', h2'⟩
        · exact Or.inl h
        · refine Or.inr ⟨he, h1', h2', ?_⟩
          rcases Bool.or_eq_true_iff.mp hcond with hside | hside
          · rcases Bool.and_eq_true_iff.mp hside with ⟨hw, hr⟩
            exact Or.inl ⟨hw, hr⟩
          · rcases Bool.and_eq_true_iff.mp hside with ⟨hw, hr⟩
            exact Or.inr ⟨by simpa using hw, hr⟩
      · rw [if_neg hcond] at hy
        exact Or.inl hy
    by_cases hq : ((s.white_to_move && s.castling_rights.white_queen_side) ||
        (!s.white_to_move && s.castling_rights.black_queen_side)) = true
    · rw [if_pos hq] at hx
      rcases getQueenSideCastlingRun_mem s r c _ x hx with h | ⟨he, h1', h2', h3'⟩
      · rcases hks x h with h' | h'
        · exact Or.inl h'
        · exact Or.inr (Or.inl h')
      · refine Or.inr (Or.inr ⟨he, h1', h2', h3', ?_⟩)
        rcases Bool.or_eq_true_iff.mp hq with hside | hside
        · rcases Bool.and_eq_true_iff.mp hside with ⟨hw, hr⟩
          exact Or.inl ⟨hw, hr⟩
        · rcases Bool.and_eq_true_iff.mp hside with ⟨hw, hr⟩
          exact Or.inr ⟨by simpa using hw, hr⟩
    · rw [if_neg hq] at hx
      rcases hks x hx with h' | h'
      · exact Or.inl h'
      · exact Or.inr (Or.inl h')

/-! ### Every generated move satisfies `MoveOK` -/

theorem MoveOK_mk_plain (b : Board) (wtm : Bool) (epo : Option (Int × Int))
    (sr sc er ec : Int)
    (hsr0 : 0 ≤ sr) (hsr7 : sr ≤ 7) (hsc0 : 0 ≤ sc) (hsc7 : sc ≤ 7)
    (her0 : 0 ≤ er) (her7 : er ≤ 7) (hec0 : 0 ≤ ec) (hec7 : ec ≤ 7)
    (hne : ¬(sr = er ∧ sc = ec))
    (hmv : (bget b sr sc).color = some (mColor wtm))
    (hcap : (bget b er ec).color ≠ some (mColor wtm))
    (hpawn : (bget b sr sc).kind = some PieceKind.pawn →
      ((sr - er).natAbs = 1 ∨
       (sc = ec ∧ ((wtm = true ∧ sr = 6 ∧ er = 4) ∨ (wtm = false ∧ sr = 1 ∧ er = 3))))) :
    MoveOK b wtm epo (mkMove (sr, sc) (er, ec) b false false none) := by
  refine ⟨⟨hsr0, hsr7, hsc0, hsc7, her0, her7, hec0, hec7⟩, hne, rfl, rfl, hmv, ?_, ?_, ?_, ?_, ?_⟩
  · simpa [mkMove] using hcap
  · intro _
    rfl
  · intro h
    simp [mkMove] at h
  · intro h
    simp [mkMove] at h
  · intro h
    simpa [mkMove] using hpawn (by simpa [mkMove] using h)

theorem MoveOK_mk_ep (b : Board) (wtm : Bool) (epo : Option (Int × Int))
    (sr sc er ec : Int)
    (hsr0 : 0 ≤ sr) (hsr7 : sr ≤ 7) (hsc0 : 0 ≤ sc) (hsc7 : sc ≤ 7)
    (her0 : 0 ≤ er) (her7 : er ≤ 7) (hec0 : 0 ≤ ec) (hec7 : ec ≤ 7)
    (hepo : epo = some (er, ec))
    (hpiece : bget b sr sc = Sq.piece (mColor wtm) PieceKind.pawn)
    (hrow : if wtm = true then sr = er + 1 else sr = er - 1)
    (hcol : sc = ec + 1 ∨ sc = ec - 1) :
    MoveOK b wtm epo (mkMove (sr, sc) (er, ec) b true false none) := by
  have hpc : (mkMove (sr, sc) (er, ec) b true false none).piece_captured =
      (if wtm = true then bp else wp) := by
    cases wtm <;> simp [mkMove, hpiece, mColor]
  have hne : ¬(sr = er ∧ sc = ec) := by
    rintro ⟨h1, h2⟩
    rcases hcol with h | h <;> omega
  refine ⟨⟨hsr0, hsr7, hsc0, hsc7, her0, her7, hec0, hec7⟩, hne, ?_, rfl, ?_, ?_, ?_, ?_, ?_, ?_⟩
  · simp [mkMove, hpiece]
  · simp [mkMove, hpiece, Sq.color]
  · rw [hpc]
    cases wtm <;> simp [mColor, Sq.color]
  · intro h
    simp [mkMove] at h
  · intro _
    refine ⟨hepo, rfl, ?_, ?_, hcol, hpc⟩
    · simp [mkMove, hpiece, Sq.kind]
    · simpa [mkMove] using hrow
  · intro h
    simp [mkMove] at h
  · intro _
    simp only [mkMove]
    left
    cases wtm <;> simp at hrow <;> omega

theorem getPawnMoves_ok (b : Board) (wtm : Bool) (epo : Option (Int × Int)) (r c : Int)
    (hr0 : 0 ≤ r) (hr7 : r ≤ 7) (hc0 : 0 ≤ c) (hc7 : c ≤ 7)
    (hpiece : bget b r c = Sq.piece (mColor wtm) PieceKind.pawn) :
    ∀ m ∈ getPawnMoves b wtm epo r c, MoveOK b wtm epo m := by
  intro m hm
  have hmv : (bget b r c).color = some (mColor wtm) := by rw [hpiece]; rfl
  unfold getPawnMoves at hm
  cases hw : wtm with
  | true =>
    rw [hw] at hm hmv hpiece
    simp only [if_true] at hm
    by_cases hf : r - 1 ≥ 0
    swap
    · rw [if_neg hf] at hm
      simp at hm
    rw [if_pos hf] at hm
    rcases List.mem_append.mp hm with hm | hm
    rcases List.mem_append.mp hm with hm | hm
    · -- forward moves
      by_cases h1 : bget b (r - 1) c = Sq.empty
      swap
      · simp [h1] at hm
      simp only [h1, beq_self_eq_true, if_true] at hm
      rcases List.mem_cons.mp hm with rfl | hm
      · refine MoveOK_mk_plain b true epo r c (r - 1) c hr0 hr7 hc0 hc7 (by omega)
          (by omega) hc0 hc7 (by omega) hmv (by simp [h1, Sq.color]) ?_
        intro _
        left
        omega
      · by_cases h2 : (r == (6 : Int) && (bget b (r - 2) c == Sq.empty)) = true
        swap
        · simp only [if_neg h2] at hm
          simp at hm
        rw [if_pos h2] at hm
        have h2' : r = 6 ∧ bget b (r - 2) c = Sq.empty := by simpa using h2
        rcases List.mem_singleton.mp hm with rfl
        refine MoveOK_mk_plain b true epo r c (r - 2) c hr0 hr7 hc0 hc7 (by omega)
          (by omega) hc0 hc7 (by omega) hmv (by simp [h2'.2, Sq.color]) ?_
        intro _
        right
        exact ⟨rfl, Or.inl ⟨rfl, h2'.1, by omega⟩⟩
    · -- captures to the left
      by_cases hcl : c - 1 ≥ 0
      swap
      · rw [if_neg hcl] at hm
        simp at hm
      rw [if_pos hcl] at hm
      by_cases hb1 : (bget b (r - 1) (c - 1)).color = some PieceColor.black
      · simp only [hb1, beq_self_eq_true, if_true] at hm
        rcases List.mem_singleton.mp hm with rfl
        refine MoveOK_mk_plain b true epo r c (r - 1) (c - 1) hr0 hr7 hc0 hc7 (by omega)
          (by omega) (by omega) (by omega) (by omega) hmv (by simp [hb1, mColor]) ?_
        intro _
        left
        omega
      · rw [if_neg (by simpa using hb1)] at hm
        by_cases hep : epo = some (r - 1, c - 1)
        swap
        · rw [if_neg (by simpa using hep)] at hm
          simp at hm
        rw [if_pos (by simpa using hep)] at hm
        rcases List.mem_singleton.mp hm with rfl
        exact MoveOK_mk_ep b true epo r c (r - 1) (c - 1) hr0 hr7 hc0 hc7 (by omega)
          (by omega) (by omega) (by omega) hep hpiece (by simp) (by omega)
    · -- captures to the right
      by_cases hcr : c + 1 ≤ 7
      swap
      · rw [if_neg hcr] at hm
        simp at hm
      rw [if_pos hcr] at hm
      by_cases hb1 : (bget b (r - 1) (c + 1)).color = some PieceColor.black
      · simp only [hb1, beq_self_eq_true, if_true] at hm
        rcases List.mem_singleton.mp hm with rfl
        refine MoveOK_mk_plain b true epo r c (r - 1) (c + 1) hr0 hr7 hc0 hc7 (by omega)
          (by omega) (by omega) (by omega) (by omega) hmv (by simp [hb1, mColor]) ?_
        intro _
        left
        omega
      · rw [if_neg (by simpa using hb1)] at hm
        by_cases hep : epo = some (r - 1, c + 1)
        swap
        · rw [if_neg (by simpa using hep)] at hm
          simp at hm
        rw [if_pos (by simpa using hep)] at hm
        rcases List.mem_singleton.mp hm with rfl
        exact MoveOK_mk_ep b true epo r c (r - 1) (c + 1) hr0 hr7 hc0 hc7 (by omega)
          (by omega) (by omega) (by omega) hep hpiece (by simp) (by omega)
  | false =>
    rw [hw] at hm hmv hpiece
    simp only [Bool.false_eq_true, if_false] at hm
    by_cases hf : r + 1 ≤ 7
    swap
    · rw [if_neg hf] at hm
      simp at hm
    rw [if_pos hf] at hm
    rcases List.mem_append.mp hm with hm | hm
    rcases List.mem_append.mp hm with hm | hm
    · by_cases h1 : bget b (r + 1) c = Sq.empty
      swap
      · simp [h1] at hm
      simp only [h1, beq_self_eq_true, if_true] at hm
      rcases List.mem_cons.mp hm with rfl | hm
      · refine MoveOK_mk_plain b false epo r c (r + 1) c hr0 hr7 hc0 hc7 (by omega)
          (by omega) hc0 hc7 (by omega) hmv (by simp [h1, Sq.color]) ?_
        intro _
        left
        omega
      · by_cases h2 : (r == (1 : Int) && (bget b (r + 2) c == Sq.empty)) = true
        swap
        · simp only [if_neg h2] at hm
          simp at hm
        rw [if_pos h2] at hm
        have h2' : r = 1 ∧ bget b (r + 2) c = Sq.empty := by simpa using h2
        rcases List.mem_singleton.mp hm with rfl
        refine MoveOK_mk_plain b false epo r c (r + 2) c hr0 hr7 hc0 hc7 (by omega)
          (by omega) hc0 hc7 (by omega) hmv (by simp [h2'.2, Sq.color]) ?_
        intro _
        right
        exact ⟨rfl, Or.inr ⟨rfl, h2'.1, by omega⟩⟩
    · by_cases hcl : c - 1 ≥ 0
      swap
      · rw [if_neg hcl] at hm
        simp at hm
      rw [if_pos hcl] at hm
      by_cases hb1 : (bget b (r + 1) (c - 1)).color = some PieceColor.white
      · simp only [hb1, beq_self_eq_true, if_true] at hm
        rcases List.mem_singleton.mp hm with rfl
        refine MoveOK_mk_plain b false epo r c (r + 1) (c - 1) hr0 hr7 hc0 hc7 (by omega)
          (by omega) (by omega) (by omega) (by omega) hmv (by simp [hb1, mColor]) ?_
        intro _
        left
        omega
      · rw [if_neg (by simpa using hb1)] at hm
        by_cases hep : epo = some (r + 1, c - 1)
        swap
        · rw [if_neg (by simpa using hep)] at hm
          simp at hm
        rw [if_pos (by simpa using hep)] at hm
        rcases List.mem_singleton.mp hm with rfl
        exact MoveOK_mk_ep b false epo r c (r + 1) (c - 1) hr0 hr7 hc0 hc7 (by omega)
          (by omega) (by omega) (by omega) hep hpiece (by simp) (by omega)
    · by_cases hcr : c + 1 ≤ 7
      swap
      · rw [if_neg hcr] at hm
        simp at hm
      rw [if_pos hcr] at hm
      by_cases hb1 : (bget b (r + 1) (c + 1)).color = some PieceColor.white
      · simp only [hb1, beq_self_eq_true, if_true] at hm
        rcases List.mem_singleton.mp hm with rfl
        refine MoveOK_mk_plain b false epo r c (r + 1) (c + 1) hr0 hr7 hc0 hc7 (by omega)
          (by omega) (by omega) (by omega) (by omega) hmv (by simp [hb1, mColor]) ?_
        intro _
        left
        omega
      · rw [if_neg (by simpa using hb1)] at hm
        by_cases hep : epo = some (r + 1, c + 1)
        swap
        · rw [if_neg (by simpa using hep)] at hm
          simp at hm
        rw [if_pos (by simpa using hep)] at hm
        rcases List.mem_singleton.mp hm with rfl
        exact MoveOK_mk_ep b false epo r c (r + 1) (c + 1) hr0 hr7 hc0 hc7 (by omega)
          (by omega) (by omega) (by omega) hep hpiece (by simp) (by omega)

theorem rayMoves_ok (b : Board) (wtm : Bool) (epo : Option (Int × Int))
    (enemy : PieceColor) (henemy : enemy ≠ mColor wtm)
    (r c dr dc : Int)
    (hr0 : 0 ≤ r) (hr7 : r ≤ 7) (hc0 : 0 ≤ c) (hc7 : c ≤ 7)
    (hd : ¬(dr = 0 ∧ dc = 0))
    (hknp : (bget b r c).kind ≠ some PieceKind.pawn)
    (hmv : (bget b r c).color = some (mColor wtm)) :
    ∀ (n : Nat) (i : Int), 1 ≤ i →
      ∀ m ∈ rayMoves b enemy r c dr dc n i, MoveOK b wtm epo m := by
  intro n
  induction n with
  | zero =>
    intro i hi m hm
    simp [rayMoves] at hm
  | succ n ih =>
    intro i hi m hm
    unfold rayMoves at hm
    by_cases hin : 0 ≤ r + dr * i ∧ r + dr * i < 8 ∧ 0 ≤ c + dc * i ∧ c + dc * i < 8
    swap
    · rw [if_neg hin] at hm
      simp at hm
    rw [if_pos hin] at hm
    have hne : ¬(r = r + dr * i ∧ c = c + dc * i) := by
      rintro ⟨h1, h2⟩
      rcases not_and_or.mp hd with h | h
      · exact absurd (by omega : dr * i = 0) (mul_ne_zero h (by omega))
      · exact absurd (by omega : dc * i = 0) (mul_ne_zero h (by omega))
    by_cases hsq : bget b (r + dr * i) (c + dc * i) = Sq.empty
    · simp only [hsq, beq_self_eq_true, if_true] at hm
      rcases List.mem_cons.mp hm with rfl | hm
      · refine MoveOK_mk_plain b wtm epo r c (r + dr * i) (c + dc * i) hr0 hr7 hc0 hc7
          (by omega) (by omega) (by omega) (by omega) hne hmv
          (by simp [hsq, Sq.color]) (fun h => absurd h hknp)
      · exact ih (i + 1) (by omega) m hm
    · rw [if_neg (by simpa using hsq)] at hm
      by_cases hcol : (bget b (r + dr * i) (c + dc * i)).color = some enemy
      swap
      · rw [if_neg (by simpa using hcol)] at hm
        simp at hm
      rw [if_pos (by simpa using hcol)] at hm
      rcases List.mem_singleton.mp hm with rfl
      refine MoveOK_mk_plain b wtm epo r c (r + dr * i) (c + dc * i) hr0 hr7 hc0 hc7
        (by omega) (by omega) (by omega) (by omega) hne hmv
        (by rw [hcol]; simp [henemy]) (fun h => absurd h hknp)

theorem getRookMoves_ok (b : Board) (wtm : Bool) (epo : Option (Int × Int)) (r c : Int)
    (hr0 : 0 ≤ r) (hr7 : r ≤ 7) (hc0 : 0 ≤ c) (hc7 : c ≤ 7)
    (hknp : (bget b r c).kind ≠ some PieceKind.pawn)
    (hmv : (bget b r c).color = some (mColor wtm)) :
    ∀ m ∈ getRookMoves b wtm r c, MoveOK b wtm epo m := by
  intro m hm
  have henemy : (if wtm then PieceColor.black else PieceColor.white) ≠ mColor wtm := by
    cases wtm <;> simp [mColor]
  unfold getRookMoves at hm
  simp only [List.mem_flatMap] at hm
  obtain ⟨d, hd, hmd⟩ := hm
  simp only [List.mem_cons, List.mem_singleton] at hd
  rcases hd with rfl | rfl | rfl | rfl | h
  · exact rayMoves_ok b wtm epo _ henemy r c _ _ hr0 hr7 hc0 hc7 (by simp) hknp hmv 7 1
      (by omega) m hmd
  · exact rayMoves_ok b wtm epo _ henemy r c _ _ hr0 hr7 hc0 hc7 (by simp) hknp hmv 7 1
      (by omega) m hmd
  · exact rayMoves_ok b wtm epo _ henemy r c _ _ hr0 hr7 hc0 hc7 (by simp) hknp hmv 7 1
      (by omega) m hmd
  · exact rayMoves_ok b wtm epo _ henemy r c _ _ hr0 hr7 hc0 hc7 (by simp) hknp hmv 7 1
      (by omega) m hmd
  · simp at h

theorem getBishopMoves_ok (b : Board) (wtm : Bool) (epo : Option (Int × Int)) (r c : Int)
    (hr0 : 0 ≤ r) (hr7 : r ≤ 7) (hc0 : 0 ≤ c) (hc7 : c ≤ 7)
    (hknp : (bget b r c).kind ≠ some PieceKind.pawn)
    (hmv : (bget b r c).color = some (mColor wtm)) :
    ∀ m ∈ getBishopMoves b wtm r c, MoveOK b wtm epo m := by
  intro m hm
  have henemy : (if wtm then PieceColor.black else PieceColor.white) ≠ mColor wtm := by
    cases wtm <;> simp [mColor]
  unfold getBishopMoves at hm
  simp only [List.mem_flatMap] at hm
  obtain ⟨d, hd, hmd⟩ := hm
  simp only [List.mem_cons, List.mem_singleton] at hd
  rcases hd with rfl | rfl | rfl | rfl | h
  · exact rayMoves_ok b wtm epo _ henemy r c _ _ hr0 hr7 hc0 hc7 (by simp) hknp hmv 7 1
      (by omega) m hmd
  · exact rayMoves_ok b wtm epo _ henemy r c _ _ hr0 hr7 hc0 hc7 (by simp) hknp hmv 7 1
      (by omega) m hmd
  · exact rayMoves_ok b wtm epo _ henemy r c _ _ hr0 hr7 hc0 hc7 (by simp) hknp hmv 7 1
      (by omega) m hmd
  · exact rayMoves_ok b wtm epo _ henemy r c _ _ hr0 hr7 hc0 hc7 (by simp) hknp hmv 7 1
      (by omega) m hmd
  · simp at h

theorem getQueenMoves_ok (b : Board) (wtm : Bool) (epo : Option (Int × Int)) (r c : Int)
    (hr0 : 0 ≤ r) (hr7 : r ≤ 7) (hc0 : 0 ≤ c) (hc7 : c ≤ 7)
    (hknp : (bget b r c).kind ≠ some PieceKind.pawn)
    (hmv : (bget b r c).color = some (mColor wtm)) :
    ∀ m ∈ getQueenMoves b wtm r c, MoveOK b wtm epo m := by
  intro m hm
  unfold getQueenMoves at hm
  rcases List.mem_append.mp hm with h | h
  · exact getRookMoves_ok b wtm epo r c hr0 hr7 hc0 hc7 hknp hmv m h
  · exact getBishopMoves_ok b wtm epo r c hr0 hr7 hc0 hc7 hknp hmv m h

theorem offsetMove_ok (b : Board) (wtm : Bool) (epo : Option (Int × Int))
    (r c dr dc : Int)
    (hr0 : 0 ≤ r) (hr7 : r ≤ 7) (hc0 : 0 ≤ c) (hc7 : c ≤ 7)
    (hd : ¬(dr = 0 ∧ dc = 0))
    (hknp : (bget b r c).kind ≠ some PieceKind.pawn)
    (hmv : (bget b r c).color = some (mColor wtm)) :
    ∀ m ∈ (if 0 ≤ r + dr ∧ r + dr < 8 ∧ 0 ≤ c + dc ∧ c + dc < 8 then
      (if (bget b (r + dr) (c + dc)).color !=
          some (if wtm then PieceColor.white else PieceColor.black) then
        [mkMove (r, c) (r + dr, c + dc) b false false none]
      else [])
    else []), MoveOK b wtm epo m := by
  intro m hm
  by_cases hin : 0 ≤ r + dr ∧ r + dr < 8 ∧ 0 ≤ c + dc ∧ c + dc < 8
  swap
  · rw [if_neg hin] at hm
    simp at hm
  rw [if_pos hin] at hm
  by_cases hcol : (bget b (r + dr) (c + dc)).color =
      some (if wtm then PieceColor.white else PieceColor.black)
  · simp [hcol] at hm
  · rw [if_pos (by simpa using hcol)] at hm
    rcases List.mem_singleton.mp hm with rfl
    refine MoveOK_mk_plain b wtm epo r c (r + dr) (c + dc) hr0 hr7 hc0 hc7
      (by omega) (by omega) (by omega) (by omega) (by rintro ⟨h1, h2⟩; omega) hmv
      ?_ (fun h => absurd h hknp)
    intro hcc
    apply hcol
    rw [hcc]
    cases wtm <;> simp [mColor]

theorem getKnightMoves_ok (b : Board) (wtm : Bool) (epo : Option (Int × Int)) (r c : Int)
    (hr0 : 0 ≤ r) (hr7 : r ≤ 7) (hc0 : 0 ≤ c) (hc7 : c ≤ 7)
    (hknp : (bget b r c).kind ≠ some PieceKind.pawn)
    (hmv : (bget b r c).color = some (mColor wtm)) :
    ∀ m ∈ getKnightMoves b wtm r c, MoveOK b wtm epo m := by
  intro m hm
  unfold getKnightMoves at hm
  simp only [List.mem_flatMap] at hm
  obtain ⟨d, hd, hmd⟩ := hm
  simp only [List.mem_cons] at hd
  rcases hd with rfl | rfl | rfl | rfl | rfl | rfl | rfl | rfl | h
  · exact offsetMove_ok b wtm epo r c _ _ hr0 hr7 hc0 hc7
      (by rintro ⟨h1, h2⟩; simp at h1 h2) hknp hmv m hmd
  · exact offsetMove_ok b wtm epo r c _ _ hr0 hr7 hc0 hc7
      (by rintro ⟨h1, h2⟩; simp at h1 h2) hknp hmv m hmd
  · exact offsetMove_ok b wtm epo r c _ _ hr0 hr7 hc0 hc7
      (by rintro ⟨h1, h2⟩; simp at h1 h2) hknp hmv m hmd
  · exact offsetMove_ok b wtm epo r c _ _ hr0 hr7 hc0 hc7
      (by rintro ⟨h1, h2⟩; simp at h1 h2) hknp hmv m hmd
  · exact offsetMove_ok b wtm epo r c _ _ hr0 hr7 hc0 hc7
      (by rintro ⟨h1, h2⟩; simp at h1 h2) hknp hmv m hmd
  · exact offsetMove_ok b wtm epo r c _ _ hr0 hr7 hc0 hc7
      (by rintro ⟨h1, h2⟩; simp at h1 h2) hknp hmv m hmd
  · exact offsetMove_ok b wtm epo r c _ _ hr0 hr7 hc0 hc7
      (by rintro ⟨h1, h2⟩; simp at h1 h2) hknp hmv m hmd
  · exact offsetMove_ok b wtm epo r c _ _ hr0 hr7 hc0 hc7
      (by rintro ⟨h1, h2⟩; simp at h1 h2) hknp hmv m hmd
  · simp at h

theorem getKingMoves_ok (b : Board) (wtm : Bool) (epo : Option (Int × Int)) (r c : Int)
    (hr0 : 0 ≤ r) (hr7 : r ≤ 7) (hc0 : 0 ≤ c) (hc7 : c ≤ 7)
    (hknp : (bget b r c).kind ≠ some PieceKind.pawn)
    (hmv : (bget b r c).color = some (mColor wtm)) :
    ∀ m ∈ getKingMoves b wtm r c, MoveOK b wtm epo m := by
  intro m hm
  unfold getKingMoves at hm
  simp only [List.mem_flatMap] at hm
  obtain ⟨d, hd, hmd⟩ := hm
  simp only [List.mem_cons] at hd
  rcases hd with rfl | rfl | rfl | rfl | rfl | rfl | rfl | rfl | h
  · exact offsetMove_ok b wtm epo r c _ _ hr0 hr7 hc0 hc7
      (by rintro ⟨h1, h2⟩; simp at h1 h2) hknp hmv m hmd
  · exact offsetMove_ok b wtm epo r c _ _ hr0 hr7 hc0 hc7
      (by rintro ⟨h1, h2⟩; simp at h1 h2) hknp hmv m hmd
  · exact offsetMove_ok b wtm epo r c _ _ hr0 hr7 hc0 hc7
      (by rintro ⟨h1, h2⟩; simp at h1 h2) hknp hmv m hmd
  · exact offsetMove_ok b wtm epo r c _ _ hr0 hr7 hc0 hc7
      (by rintro ⟨h1, h2⟩; simp at h1 h2) hknp hmv m hmd
  · exact offsetMove_ok b wtm epo r c _ _ hr0 hr7 hc0 hc7
      (by rintro ⟨h1, h2⟩; simp at h1 h2) hknp hmv m hmd
  · exact offsetMove_ok b wtm epo r c _ _ hr0 hr7 hc0 hc7
      (by rintro ⟨h1, h2⟩; simp at h1 h2) hknp hmv m hmd
  · exact offsetMove_ok b wtm epo r c _ _ hr0 hr7 hc0 hc7
      (by rintro ⟨h1, h2⟩; simp at h1 h2) hknp hmv m hmd
  · exact offsetMove_ok b wtm epo r c _ _ hr0 hr7 hc0 hc7
      (by rintro ⟨h1, h2⟩; simp at h1 h2) hknp hmv m hmd
  · simp at h

theorem allPossibleMoves_ok (b : Board) (hb : boardWF b) (wtm : Bool)
    (epo : Option (Int × Int)) :
    ∀ m ∈ allPossibleMoves b wtm epo, MoveOK b wtm epo m := by
  intro m hm
  unfold allPossibleMoves at hm
  simp only [List.mem_flatMap, List.mem_range] at hm
  obtain ⟨rn, hrn, cn, hcn, hmc⟩ := hm
  have hrn8 : rn < 8 := by rw [hb.1] at hrn; exact hrn
  have hrow8 : (b.getD rn []).length = 8 := by
    rw [List.getD_eq_getElem b [] hrn]
    exact hb.2 _ (List.getElem_mem hrn)
  have hcn8 : cn < 8 := by rw [hrow8] at hcn; exact hcn
  have hbg : bget b (rn : Int) (cn : Int) = (b.getD rn []).getD cn Sq.empty :=
    bget_natCast b rn cn
  have hr0 : (0 : Int) ≤ (rn : Int) := by omega
  have hr7 : (rn : Int) ≤ 7 := by omega
  have hc0 : (0 : Int) ≤ (cn : Int) := by omega
  have hc7 : (cn : Int) ≤ 7 := by omega
  cases hsq : (b.getD rn []).getD cn Sq.empty with
  | empty =>
    simp only [hsq] at hmc
    simp at hmc
  | piece col k =>
    simp only [hsq] at hmc
    rw [hsq] at hbg
    by_cases hturn : ((col == PieceColor.white && wtm) || (col == PieceColor.black && !wtm)) = true
    swap
    · rw [if_neg hturn] at hmc
      simp at hmc
    rw [if_pos hturn] at hmc
    have hcol : col = mColor wtm := by
      cases wtm <;> cases col <;> simp [mColor] at hturn ⊢
    subst hcol
    have hmvc : (bget b (rn : Int) (cn : Int)).color = some (mColor wtm) := by
      rw [hbg]; rfl
    cases k with
    | pawn =>
      exact getPawnMoves_ok b wtm epo _ _ hr0 hr7 hc0 hc7 hbg m hmc
    | rook =>
      exact getRookMoves_ok b wtm epo _ _ hr0 hr7 hc0 hc7 (by rw [hbg]; simp [Sq.kind]) hmvc m hmc
    | knight =>
      exact getKnightMoves_ok b wtm epo _ _ hr0 hr7 hc0 hc7 (by rw [hbg]; simp [Sq.kind]) hmvc m hmc
    | bishop =>
      exact getBishopMoves_ok b wtm epo _ _ hr0 hr7 hc0 hc7 (by rw [hbg]; simp [Sq.kind]) hmvc m hmc
    | queen =>
      exact getQueenMoves_ok b wtm epo _ _ hr0 hr7 hc0 hc7 (by rw [hbg]; simp [Sq.kind]) hmvc m hmc
    | king =>
      exact getKingMoves_ok b wtm epo _ _ hr0 hr7 hc0 hc7 (by rw [hbg]; simp [Sq.kind]) hmvc m hmc

theorem MoveOK_mk_castleK (b : Board) (wtm : Bool) (epo : Option (Int × Int)) (r : Int)
    (hr0 : 0 ≤ r) (hr7 : r ≤ 7)
    (hking : bget b r 4 = Sq.piece (mColor wtm) PieceKind.king)
    (h5 : bget b r 5 = Sq.empty) (h6 : bget b r 6 = Sq.empty) :
    MoveOK b wtm epo (mkMove (r, 4) (r, 6) b false true none) := by
  refine ⟨⟨hr0, hr7, by simp [mkMove], by simp [mkMove], hr0, hr7, by simp [mkMove],
    by simp [mkMove]⟩, ?_, ?_, rfl, ?_, ?_, ?_, ?_, ?_, ?_⟩
  · rintro ⟨h1, h2⟩
    simp [mkMove] at h2
  · simp [mkMove]
  · simp [mkMove, hking, Sq.color]
  · simp [mkMove, h6, Sq.color]
  · intro _
    rfl
  · intro h
    simp [mkMove] at h
  · intro _
    exact ⟨rfl, rfl, rfl, by simp [mkMove, hking, Sq.kind], Or.inl ⟨rfl, h5, h6⟩⟩
  · intro h
    simp [mkMove, hking, Sq.kind] at h

theorem MoveOK_mk_castleQ (b : Board) (wtm : Bool) (epo : Option (Int × Int)) (r : Int)
    (hr0 : 0 ≤ r) (hr7 : r ≤ 7)
    (hking : bget b r 4 = Sq.piece (mColor wtm) PieceKind.king)
    (h1 : bget b r 1 = Sq.empty) (h2 : bget b r 2 = Sq.empty)
    (h3 : bget b r 3 = Sq.empty) :
    MoveOK b wtm epo (mkMove (r, 4) (r, 2) b false true none) := by
  refine ⟨⟨hr0, hr7, by simp [mkMove], by simp [mkMove], hr0, hr7, by simp [mkMove],
    by simp [mkMove]⟩, ?_, ?_, rfl, ?_, ?_, ?_, ?_, ?_, ?_⟩
  · rintro ⟨ha, hb2⟩
    simp [mkMove] at hb2
  · simp [mkMove]
  · simp [mkMove, hking, Sq.color]
  · simp [mkMove, h2, Sq.color]
  · intro _
    rfl
  · intro h
    simp [mkMove] at h
  · intro _
    exact ⟨rfl, rfl, rfl, by simp [mkMove, hking, Sq.kind], Or.inr ⟨rfl, h1, h2, h3⟩⟩
  · intro h
    simp [mkMove, hking, Sq.kind] at h

theorem gvCandidates_ok (s : GState) (hWF : WF s) :
    ∀ m ∈ gvCandidates s, MoveOK s.board s.white_to_move s.en_passant_possible m := by
  obtain ⟨hdim, hwk4, hbk4, hwkb, hbkb, hwkU, hbkU, hepOK, hcw, hcb⟩ := hWF
  intro m hm
  unfold gvCandidates at hm
  by_cases hw : s.white_to_move = true
  · rw [if_pos hw] at hm
    rcases getCastlingMovesRun_mem s _ _ _ m hm with h | ⟨he, hk1, hk2, hkside⟩ |
        ⟨he, hq1, hq2, hq3, hqside⟩
    · exact allPossibleMoves_ok s.board hdim _ _ m h
    · have hks : s.castling_rights.white_king_side = true := by
        rcases hkside with ⟨_, h⟩ | ⟨hfw, _⟩
        · exact h
        · rw [hw] at hfw
          cases hfw
      have hloc : s.white_king_location = (7, 4) := hcw (Or.inl hks)
      rw [hloc] at he hk1 hk2 hwkb
      norm_num at he hk1 hk2 hwkb
      rw [he]
      rw [hw]
      exact MoveOK_mk_castleK s.board true _ 7 (by omega) (by omega)
        (by rw [hwkb]; rfl) hk1 hk2
    · have hqs : s.castling_rights.white_queen_side = true := by
        rcases hqside with ⟨_, h⟩ | ⟨hfw, _⟩
        · exact h
        · rw [hw] at hfw
          cases hfw
      have hloc : s.white_king_location = (7, 4) := hcw (Or.inr hqs)
      rw [hloc] at he hq1 hq2 hq3 hwkb
      norm_num at he hq1 hq2 hq3 hwkb
      rw [he]
      rw [hw]
      exact MoveOK_mk_castleQ s.board true _ 7 (by omega) (by omega)
        (by rw [hwkb]; rfl) hq3 hq2 hq1
  · have hw' : s.white_to_move = false := by simpa using hw
    rw [if_neg hw] at hm
    rcases getCastlingMovesRun_mem s _ _ _ m hm with h | ⟨he, hk1, hk2, hkside⟩ |
        ⟨he, hq1, hq2, hq3, hqside⟩
    · exact allPossibleMoves_ok s.board hdim _ _ m h
    · have hks : s.castling_rights.black_king_side = true := by
        rcases hkside with ⟨hfw, _⟩ | ⟨_, h⟩
        · rw [hw'] at hfw
          cases hfw
        · exact h
      have hloc : s.black_king_location = (0, 4) := hcb (Or.inl hks)
      rw [hloc] at he hk1 hk2 hbkb
      norm_num at he hk1 hk2 hbkb
      rw [he]
      rw [hw']
      exact MoveOK_mk_castleK s.board false _ 0 (by omega) (by omega)
        (by rw [hbkb]; rfl) hk1 hk2
    · have hqs : s.castling_rights.black_queen_side = true := by
        rcases hqside with ⟨hfw, _⟩ | ⟨_, h⟩
        · rw [hw'] at hfw
          cases hfw
        · exact h
      have hloc : s.black_king_location = (0, 4) := hcb (Or.inr hqs)
      rw [hloc] at he hq1 hq2 hq3 hbkb
      norm_num at he hq1 hq2 hq3 hbkb
      rw [he]
      rw [hw']
      exact MoveOK_mk_castleQ s.board false _ 0 (by omega) (by omega)
        (by rw [hbkb]; rfl) hq3 hq2 hq1

theorem getValidMoves_restores (s : GState) (hWF : WF s) (mv : List Move) (s' : GState)
    (h : getValidMoves s = some (mv, s')) :
    s'.board = s.board ∧ s'.white_to_move = s.white_to_move ∧
    s'.white_king_location = s.white_king_location ∧
    s'.black_king_location = s.black_king_location ∧
    s'.en_passant_possible = s.en_passant_possible ∧
    s'.castling_rights = s.castling_rights ∧
    s'.move_log = s.move_log ∧ s'.redo_log = s.redo_log := by
  unfold getValidMoves at h
  have hpair : (if s.white_to_move then
      getCastlingMovesRun s s.white_king_location.1 s.white_king_location.2
        (getAllPossibleMoves s)
    else
      getCastlingMovesRun s s.black_king_location.1 s.black_king_location.2
        (getAllPossibleMoves s)) = (gvCandidates s, s) := by
    unfold gvCandidates
    split
    · exact Prod.ext rfl (getCastlingMovesRun_snd _ _ _ _)
    · exact Prod.ext rfl (getCastlingMovesRun_snd _ _ _ _)
  simp only [hpair] at h
  rcases hfl : filterLoop (gvCandidates s).length (gvCandidates s) s with ⟨mv2, sB⟩
  have hInv : LoopInv s sB ∧ ∀ x ∈ mv2, x ∈ gvCandidates s := by
    have := filterLoop_inv s hWF (gvCandidates s).length (gvCandidates s) s
      (gvCandidates_ok s hWF) ⟨rfl, rfl, rfl, rfl, rfl, rfl, Or.inl rfl⟩
    rw [hfl] at this
    exact this
  obtain ⟨⟨hb, hw, hwk, hbk, hml, hrl, _⟩, _⟩ := hInv
  rw [hfl] at h
  simp only [inCheckRun_eta] at h
  by_cases hlen : (mv2.length == 0) = true
  · rw [if_pos hlen] at h
    by_cases hchk : inCheckB sB = true
    · rw [if_pos hchk] at h
      cases hdr : checkForDraw ({ sB with checkmate := true } : GState).board with
      | none =>
        rw [hdr] at h
        cases h
      | some d =>
        rw [hdr] at h
        rw [Option.some_inj] at h
        obtain ⟨hmv, hs'⟩ := Prod.mk.injEq _ _ _ _ |>.mp h
        subst hs'
        exact ⟨hb, hw, hwk, hbk, rfl, rfl, hml, hrl⟩
    · rw [if_neg hchk] at h
      cases hdr : checkForDraw ({ sB with stalemate := true } : GState).board with
      | none =>
        rw [hdr] at h
        cases h
      | some d =>
        rw [hdr] at h
        rw [Option.some_inj] at h
        obtain ⟨hmv, hs'⟩ := Prod.mk.injEq _ _ _ _ |>.mp h
        subst hs'
        exact ⟨hb, hw, hwk, hbk, rfl, rfl, hml, hrl⟩
  · rw [if_neg hlen] at h
    cases hdr : checkForDraw ({ sB with checkmate := false, stalemate := false } : GState).board with
    | none =>
      rw [hdr] at h
      cases h
    | some d =>
      rw [hdr] at h
      rw [Option.some_inj] at h
      obtain ⟨hmv, hs'⟩ := Prod.mk.injEq _ _ _ _ |>.mp h
      subst hs'
      exact ⟨hb, hw, hwk, hbk, rfl, rfl, hml, hrl⟩

/-! ### The check test of the legality filter only depends on the entry
position: the en-passant drift of the loop state is invisible to it -/

theorem list_any_congr {α : Type} {p q : α → Bool} :
    ∀ (l : List α), (∀ x ∈ l, p x = q x) → l.any p = l.any q := by
  intro l
  induction l with
  | nil => intro _; rfl
  | cons x xs ih =>
    intro h
    simp only [List.any_cons]
    rw [h x (List.mem_cons_self x xs), ih (fun y hy => h y (List.mem_cons_of_mem x hy))]

theorem ep_branch_any (b : Board) (sr sc er ec R C tr tc : Int) (cap : Bool)
    (hne : ¬(tr = R ∧ tc = C)) :
    (if cap = true then [mkMove (sr, sc) (er, ec) b false false none]
     else if (some (tr, tc) : Option (Int × Int)) == some (er, ec) then
       [mkMove (sr, sc) (er, ec) b true false none]
     else []).any (fun m => m.end_row == R && m.end_col == C)
    = (if cap = true then [mkMove (sr, sc) (er, ec) b false false none]
       else if (none : Option (Int × Int)) == some (er, ec) then
         [mkMove (sr, sc) (er, ec) b true false none]
       else []).any (fun m => m.end_row == R && m.end_col == C) := by
  by_cases hcap : cap = true
  · rw [if_pos hcap, if_pos hcap]
  · rw [if_neg hcap, if_neg hcap,
      if_neg (show ¬((none : Option (Int × Int)) == some (er, ec)) = true by simp)]
    by_cases hepc : ((some (tr, tc) : Option (Int × Int)) == some (er, ec)) = true
    · rw [if_pos hepc]
      have hte : tr = er ∧ tc = ec := by
        rw [beq_iff_eq, Option.some_inj, Prod.mk.injEq] at hepc
        exact hepc
      obtain ⟨ht1, ht2⟩ := hte
      have hne' : ¬(er = R ∧ ec = C) := by
        rintro ⟨hA, hB⟩
        exact hne ⟨by omega, by omega⟩
      apply Bool.eq_false_iff.mpr
      intro hcontra
      simp only [List.any_cons, List.any_nil, Bool.or_false, Bool.and_eq_true,
        beq_iff_eq] at hcontra
      have he1 : (mkMove (sr, sc) (er, ec) b true false none).end_row = er := rfl
      have he2 : (mkMove (sr, sc) (er, ec) b true false none).end_col = ec := rfl
      rw [he1, he2] at hcontra
      exact hne' hcontra
    · rw [if_neg hepc]

theorem getPawnMoves_any_ep (b : Board) (w : Bool) (tr tc r c R C : Int)
    (hne : ¬(tr = R ∧ tc = C)) :
    (getPawnMoves b w (some (tr, tc)) r c).any
        (fun m => m.end_row == R && m.end_col == C)
      = (getPawnMoves b w none r c).any
          (fun m => m.end_row == R && m.end_col == C) := by
  unfold getPawnMoves
  by_cases hw : w = true
  · rw [if_pos hw, if_pos hw]
    by_cases h0 : r - 1 ≥ 0
    · rw [if_pos h0, if_pos h0]
      by_cases hc1 : c - 1 ≥ 0
      · rw [if_pos hc1, if_pos hc1]
        by_cases hc2 : c + 1 ≤ 7
        · rw [if_pos hc2, if_pos hc2]
          simp only [List.any_append]
          rw [ep_branch_any b r c (r - 1) (c - 1) R C tr tc _ hne,
              ep_branch_any b r c (r - 1) (c + 1) R C tr tc _ hne]
        · rw [if_neg hc2, if_neg hc2]
          simp only [List.any_append]
          rw [ep_branch_any b r c (r - 1) (c - 1) R C tr tc _ hne]
      · rw [if_neg hc1, if_neg hc1]
        by_cases hc2 : c + 1 ≤ 7
        · rw [if_pos hc2, if_pos hc2]
          simp only [List.any_append]
          rw [ep_branch_any b r c (r - 1) (c + 1) R C tr tc _ hne]
        · rw [if_neg hc2, if_neg hc2]
    · rw [if_neg h0, if_neg h0]
  · rw [if_neg hw, if_neg hw]
    by_cases h0 : r + 1 ≤ 7
    · rw [if_pos h0, if_pos h0]
      by_cases hc1 : c - 1 ≥ 0
      · rw [if_pos hc1, if_pos hc1]
        by_cases hc2 : c + 1 ≤ 7
        · rw [if_pos hc2, if_pos hc2]
          simp only [List.any_append]
          rw [ep_branch_any b r c (r + 1) (c - 1) R C tr tc _ hne,
              ep_branch_any b r c (r + 1) (c + 1) R C tr tc _ hne]
        · rw [if_neg hc2, if_neg hc2]
          simp only [List.any_append]
          rw [ep_branch_any b r c (r + 1) (c - 1) R C tr tc _ hne]
      · rw [if_neg hc1, if_neg hc1]
        by_cases hc2 : c + 1 ≤ 7
        · rw [if_pos hc2, if_pos hc2]
          simp only [List.any_append]
          rw [ep_branch_any b r c (r + 1) (c + 1) R C tr tc _ hne]
        · rw [if_neg hc2, if_neg hc2]
    · rw [if_neg h0, if_neg h0]

theorem apm_any_ep (b : Board) (w : Bool) (tr tc R C : Int)
    (hne : ¬(tr = R ∧ tc = C)) :
    (allPossibleMoves b w (some (tr, tc))).any
        (fun m => m.end_row == R && m.end_col == C)
      = (allPossibleMoves b w none).any
          (fun m => m.end_row == R && m.end_col == C) := by
  unfold allPossibleMoves
  rw [List.any_flatMap, List.any_flatMap]
  apply list_any_congr
  intro rn _
  rw [List.any_flatMap, List.any_flatMap]
  apply list_any_congr
  intro cn _
  cases hsq : (b.getD rn []).getD cn Sq.empty with
  | empty => rfl
  | piece col k =>
    dsimp only
    split
    · cases k with
      | pawn => exact getPawnMoves_any_ep b w tr tc rn cn R C hne
      | rook => rfl
      | knight => rfl
      | bishop => rfl
      | queen => rfl
      | king => rfl
    · rfl

theorem suAttackB_apm (s : GState) (r c : Int) :
    suAttackB s r c
      = (allPossibleMoves s.board (!s.white_to_move) s.en_passant_possible).any
          (fun m => m.end_row == r && m.end_col == c) := rfl

theorem inCheckB_if (s : GState) :
    inCheckB s =
      if s.white_to_move then
        suAttackB s s.white_king_location.1 s.white_king_location.2
      else
        suAttackB s s.black_king_location.1 s.black_king_location.2 := by
  unfold inCheckB inCheckRun
  split
  · rfl
  · rfl

theorem inCheckB_congr (x y : GState) (hb : x.board = y.board)
    (hw : x.white_to_move = y.white_to_move)
    (hwk : x.white_king_location = y.white_king_location)
    (hbk : x.black_king_location = y.black_king_location)
    (hep : x.en_passant_possible = y.en_passant_possible) :
    inCheckB x = inCheckB y := by
  rw [inCheckB_if, inCheckB_if, hw, hwk, hbk]
  by_cases hyw : y.white_to_move = true
  · rw [if_pos hyw, if_pos hyw, suAttackB_apm, suAttackB_apm, hb, hw, hep]
  · rw [if_neg hyw, if_neg hyw, suAttackB_apm, suAttackB_apm, hb, hw, hep]

theorem inCheckB_ep_none (x : GState) (tr tc : Int)
    (hx : x.en_passant_possible = some (tr, tc))
    (hwkne : x.white_to_move = true →
      ¬(tr = x.white_king_location.1 ∧ tc = x.white_king_location.2))
    (hbkne : x.white_to_move = false →
      ¬(tr = x.black_king_location.1 ∧ tc = x.black_king_location.2)) :
    inCheckB x = inCheckB { x with en_passant_possible := none } := by
  rw [inCheckB_if, inCheckB_if]
  by_cases hw : x.white_to_move = true
  · have hw' : ({ x with en_passant_possible := none } : GState).white_to_move = true := hw
    rw [if_pos hw, if_pos hw', suAttackB_apm, suAttackB_apm]
    show (allPossibleMoves x.board (!x.white_to_move) x.en_passant_possible).any
        (fun m => m.end_row == x.white_king_location.1 &&
          m.end_col == x.white_king_location.2)
      = (allPossibleMoves x.board (!x.white_to_move) none).any
          (fun m => m.end_row == x.white_king_location.1 &&
            m.end_col == x.white_king_location.2)
    rw [hx]
    exact apm_any_ep x.board (!x.white_to_move) tr tc
      x.white_king_location.1 x.white_king_location.2 (hwkne hw)
  · have hwf : x.white_to_move = false := by simpa using hw
    have hw' : ¬(({ x with en_passant_possible := none } : GState).white_to_move = true) := hw
    rw [if_neg hw, if_neg hw', suAttackB_apm, suAttackB_apm]
    show (allPossibleMoves x.board (!x.white_to_move) x.en_passant_possible).any
        (fun m => m.end_row == x.black_king_location.1 &&
          m.end_col == x.black_king_location.2)
      = (allPossibleMoves x.board (!x.white_to_move) none).any
          (fun m => m.end_row == x.black_king_location.1 &&
            m.end_col == x.black_king_location.2)
    rw [hx]
    exact apm_any_ep x.board (!x.white_to_move) tr tc
      x.black_king_location.1 x.black_king_location.2 (hbkne hwf)

theorem promo_piece_pawn (m : Move) (hp : m.is_pawn_promotion = true) :
    m.piece_moved = wp ∨ m.piece_moved = bp := by
  unfold Move.is_pawn_promotion at hp
  simp only [Bool.or_eq_true, Bool.and_eq_true, beq_iff_eq] at hp
  rcases hp with ⟨h, _⟩ | ⟨h, _⟩
  · exact Or.inl h
  · exact Or.inr h

theorem makeMove_congr (s st : GState) (m : Move)
    (hb : st.board = s.board) (hw : st.white_to_move = s.white_to_move)
    (hwk : st.white_king_location = s.white_king_location)
    (hbk : st.black_king_location = s.black_king_location) :
    (makeMove st m).board = (makeMove s m).board ∧
    (makeMove st m).white_to_move = (makeMove s m).white_to_move ∧
    (makeMove st m).white_king_location = (makeMove s m).white_king_location ∧
    (makeMove st m).black_king_location = (makeMove s m).black_king_location ∧
    (makeMove st m).en_passant_possible =
      (if m.is_pawn_promotion = true then st.en_passant_possible
       else (makeMove s m).en_passant_possible) := by
  unfold makeMove
  by_cases hp : m.is_pawn_promotion = true
  · cases hpp : m.promotion_piece with
    | none => simp [hp, hpp, hb, hw, hwk, hbk]
    | some pk =>
      cases hc : m.piece_moved.color with
      | none => simp [hp, hpp, hc, hb, hw, hwk, hbk]
      | some col => simp [hp, hpp, hc, hb, hw, hwk, hbk]
  · simp [hp, hb, hw, hwk, hbk]

theorem loop_check_eq (s st : GState) (m : Move) (hWF : WF s)
    (hOK : MoveOK s.board s.white_to_move s.en_passant_possible m)
    (hb : st.board = s.board) (hw : st.white_to_move = s.white_to_move)
    (hwk : st.white_king_location = s.white_king_location)
    (hbk : st.black_king_location = s.black_king_location)
    (hep : st.en_passant_possible = s.en_passant_possible ∨
      st.en_passant_possible = none) :
    inCheckB { makeMove st m with white_to_move := !(makeMove st m).white_to_move }
      = inCheckB { makeMove s m with
          white_to_move := !(makeMove s m).white_to_move } := by
  obtain ⟨hBc, hWc, hWKc, hBKc, hEPc⟩ := makeMove_congr s st m hb hw hwk hbk
  by_cases hpr : m.is_pawn_promotion = true
  case neg =>
    apply inCheckB_congr
    · exact hBc
    · show (!(makeMove st m).white_to_move) = (!(makeMove s m).white_to_move)
      rw [hWc]
    · exact hWKc
    · exact hBKc
    · show (makeMove st m).en_passant_possible = (makeMove s m).en_passant_possible
      rw [hEPc, if_neg hpr]
  case pos =>
    rcases hep with heq | hnone
    · apply inCheckB_congr
      · exact hBc
      · show (!(makeMove st m).white_to_move) = (!(makeMove s m).white_to_move)
        rw [hWc]
      · exact hWKc
      · exact hBKc
      · show (makeMove st m).en_passant_possible = (makeMove s m).en_passant_possible
        rw [hEPc, if_pos hpr, heq, makeMove_ep_promo s m hpr hOK.promoNone]
    · cases hsep : s.en_passant_possible with
      | none =>
        apply inCheckB_congr
        · exact hBc
        · show (!(makeMove st m).white_to_move) = (!(makeMove s m).white_to_move)
          rw [hWc]
        · exact hWKc
        · exact hBKc
        · show (makeMove st m).en_passant_possible = (makeMove s m).en_passant_possible
          rw [hEPc, if_pos hpr, hnone, makeMove_ep_promo s m hpr hOK.promoNone, hsep]
      | some t =>
        obtain ⟨tr, tc⟩ := t
        obtain ⟨hdim, hwk4, hbk4, hwkb, hbkb, hwkU, hbkU, hepOK, hcw, hcb⟩ := hWF
        rw [hsep] at hepOK
        have hkwEq : (makeMove s m).white_king_location = s.white_king_location := by
          rw [makeMove_wk]
          rcases promo_piece_pawn m hpr with h | h <;> simp [h]
        have hkbEq : (makeMove s m).black_king_location = s.black_king_location := by
          rw [makeMove_bk]
          rcases promo_piece_pawn m hpr with h | h <;> simp [h]
        have hXep : ({ makeMove s m with
            white_to_move := !(makeMove s m).white_to_move } : GState).en_passant_possible
            = some (tr, tc) := by
          show (makeMove s m).en_passant_possible = some (tr, tc)
          rw [makeMove_ep_promo s m hpr hOK.promoNone, hsep]
        rw [inCheckB_ep_none { makeMove s m with
            white_to_move := !(makeMove s m).white_to_move } tr tc hXep ?hwside ?hbside]
        case hwside =>
          intro hwt hcon
          have hsw : s.white_to_move = true := by
            have h1 : (!(makeMove s m).white_to_move) = true := hwt
            rw [makeMove_wtm, Bool.not_not] at h1
            exact h1
          have hcon' : tr = s.white_king_location.1 ∧ tc = s.white_king_location.2 := by
            have h1 : ({ makeMove s m with
                white_to_move := !(makeMove s m).white_to_move } : GState).white_king_location
                = s.white_king_location := hkwEq
            rw [h1] at hcon
            exact hcon
          simp [epOK, hsw] at hepOK
          obtain ⟨-, -, htr, hemp, -⟩ := hepOK
          obtain ⟨hc1, hc2⟩ := hcon'
          rw [← hc1, ← hc2] at hwkb
          rw [htr] at hwkb
          rw [hemp] at hwkb
          exact absurd hwkb (by decide)
        case hbside =>
          intro hwt hcon
          have hsw : s.white_to_move = false := by
            have h1 : (!(makeMove s m).white_to_move) = false := hwt
            rw [makeMove_wtm, Bool.not_not] at h1
            exact h1
          have hcon' : tr = s.black_king_location.1 ∧ tc = s.black_king_location.2 := by
            have h1 : ({ makeMove s m with
                white_to_move := !(makeMove s m).white_to_move } : GState).black_king_location
                = s.black_king_location := hkbEq
            rw [h1] at hcon
            exact hcon
          simp [epOK, hsw] at hepOK
          obtain ⟨-, -, htr, hemp, -⟩ := hepOK
          obtain ⟨hc1, hc2⟩ := hcon'
          rw [← hc1, ← hc2] at hbkb
          rw [htr] at hbkb
          rw [hemp] at hbkb
          exact absurd hbkb (by decide)
        apply inCheckB_congr
        · exact hBc
        · show (!(makeMove st m).white_to_move) = (!(makeMove s m).white_to_move)
          rw [hWc]
        · exact hWKc
        · exact hBKc
        · show (makeMove st m).en_passant_possible = (none : Option (Int × Int))
          rw [hEPc, if_pos hpr]
          exact hnone

/-! ### Every move kept by the legality filter passed its check test -/

theorem moveEqB_refl (m : Move) : moveEqB m m = true := by
  simp [moveEqB]

theorem removeFirstEq_eraseIdx :
    ∀ (moves : List Move) (i : Nat) (m0 : Move), moves[i]? = some m0 →
      ∃ j, j ≤ i ∧ removeFirstEq moves m0 = moves.eraseIdx j := by
  intro moves
  induction moves with
  | nil => intro i m0 h; simp at h
  | cons x xs ih =>
    intro i m0 h
    by_cases hx : moveEqB x m0 = true
    · refine ⟨0, Nat.zero_le i, ?_⟩
      unfold removeFirstEq
      rw [if_pos hx]
      rfl
    · cases i with
      | zero =>
        have hxm : x = m0 := by simpa using h
        subst hxm
        exact absurd (moveEqB_refl x) hx
      | succ i' =>
        have h' : xs[i']? = some m0 := by simpa using h
        obtain ⟨j, hj, hje⟩ := ih i' m0 h'
        refine ⟨j + 1, by omega, ?_⟩
        unfold removeFirstEq
        rw [if_neg hx, hje]
        rfl

theorem drop_eraseIdx_of_le (xs : List Move) (j i : Nat) (hji : j ≤ i)
    (hi : i < xs.length) :
    (xs.eraseIdx j).drop i = xs.drop (i + 1) := by
  have hjlen : (List.take j xs).length = j := by
    rw [List.length_take]
    omega
  have h1 : List.drop i (List.take j xs) = [] :=
    List.drop_eq_nil_of_le (by omega)
  rw [List.eraseIdx_eq_take_drop_succ, List.drop_append_eq_append_drop, h1,
    List.nil_append, hjlen, List.drop_drop]
  congr 1
  omega

theorem filterLoop_keep (s : GState) (hWF : WF s) :
    ∀ (i : Nat) (moves : List Move) (st : GState),
      (∀ m ∈ moves, MoveOK s.board s.white_to_move s.en_passant_possible m) →
      LoopInv s st →
      ∀ m ∈ (filterLoop i moves st).1,
        m ∈ moves.drop i ∨
        inCheckB { makeMove s m with
          white_to_move := !(makeMove s m).white_to_move } = false := by
  intro i
  induction i with
  | zero =>
    intro moves st hOKall hInv m hm
    rw [List.drop_zero]
    exact Or.inl (by simpa [filterLoop] using hm)
  | succ i ih =>
    intro moves st hOKall hInv m hm
    cases hgm : moves[i]? with
    | none =>
      have hfl : filterLoop (i + 1) moves st = filterLoop i moves st := by
        conv_lhs => rw [filterLoop]
        rw [hgm]
      rw [hfl] at hm
      rcases ih moves st hOKall hInv m hm with hmem | hsafe
      · have hlen : moves.length ≤ i := List.getElem?_eq_none_iff.mp hgm
        rw [List.drop_eq_nil_of_le hlen] at hmem
        simp at hmem
      · exact Or.inr hsafe
    | some m0 =>
      rw [filterLoop_cons i moves st m0 hgm] at hm
      obtain ⟨hilen, hgeq⟩ := List.getElem?_eq_some_iff.mp hgm
      have hm0mem : m0 ∈ moves := mem_of_getElem?_some hgm
      have hOKm0 := hOKall m0 hm0mem
      obtain ⟨hb, hwtm, hwk, hbk, hml', hrl, hepInv⟩ := hInv
      obtain ⟨hub, huw, huwk, hubk, huml, hurl, huep⟩ :=
        undo_make_restores s st m0 hWF hOKm0 hb hwk hbk
      have hInv' : LoopInv s (undoMove false (makeMove st m0)) := by
        refine ⟨hub.trans hb, huw.trans hwtm, huwk.trans hwk, hubk.trans hbk,
          huml.trans hml', hurl.trans hrl, ?_⟩
        rw [huep]
        by_cases he : m0.is_en_passant_move = true
        · simp [he]
        · simp only [he, Bool.false_eq_true, if_false]
          by_cases h2 : m0.isTwoSquarePawn = true
          · simp [he, h2]
          · simp only [h2, Bool.false_eq_true, if_false]
            by_cases hp : m0.is_pawn_promotion = true
            · simp only [hp, if_true]
              exact hepInv
            · simp [he, h2, hp]
      have hchkEq : inCheckB { makeMove st m0 with
            white_to_move := !(makeMove st m0).white_to_move }
          = inCheckB { makeMove s m0 with
            white_to_move := !(makeMove s m0).white_to_move } :=
        loop_check_eq s st m0 hWF hOKm0 hb hwtm hwk hbk hepInv
      by_cases hchk : inCheckB { makeMove st m0 with
          white_to_move := !(makeMove st m0).white_to_move } = true
      · rw [if_pos hchk] at hm
        have hOK' : ∀ x ∈ removeFirstEq moves m0,
            MoveOK s.board s.white_to_move s.en_passant_possible x :=
          fun x hx => hOKall x (removeFirstEq_subset moves m0 x hx)
        rcases ih (removeFirstEq moves m0) _ hOK' hInv' m hm with hmem | hsafe
        · obtain ⟨j, hji, hje⟩ := removeFirstEq_eraseIdx moves i m0 hgm
          rw [hje, drop_eraseIdx_of_le moves j i hji hilen] at hmem
          exact Or.inl hmem
        · exact Or.inr hsafe
      · rw [if_neg hchk] at hm
        rcases ih moves _ hOKall hInv' m hm with hmem | hsafe
        · rw [List.drop_eq_getElem_cons hilen] at hmem
          rcases List.mem_cons.mp hmem with heq | hmem'
          · right
            rw [heq, hgeq, ← hchkEq]
            simpa using hchk
          · exact Or.inl hmem'
        · exact Or.inr hsafe

/-! ### Claim theorems -/

/-- C1: after 1. e2e4 (a reachable position whose en-passant target is set)
the legal reply g8f6, applied by `make_move` and taken back by `undo_move`,
restores the board but NOT the en-passant target: `undo_move` never
restores a target cleared by the undone move, so the round-trip law fails
on `en_passant_possible`. -/
theorem c1_undo_does_not_restore_en_passant :
    Reachable c1Pos ∧ c1Knight ∈ gvMoves c1Pos ∧
    c1Pos.en_passant_possible = some (5, 4) ∧
    (gvState c1Pos).en_passant_possible = some (5, 4) ∧
    (undoMove true (makeMove (gvState c1Pos) c1Knight)).board = (gvState c1Pos).board ∧
    (undoMove true (makeMove (gvState c1Pos) c1Knight)).en_passant_possible = none := by
  refine ⟨reachable_c1Pos, by decide, by decide, by decide, by decide, by decide⟩

/-- C4 counterexample: in the reachable position `c4Pos` (black has just
played the double step g7g5, so the en-passant target is set) the legal
promoting capture b7xa8 is not a two-square pawn advance, yet after
`make_move` the en-passant target is still set: the pawn-promotion early
return skips the en-passant update. -/
theorem c4_counterexample :
    Reachable c4Pos ∧ c4Promo ∈ gvMoves c4Pos ∧
    c4Promo.isTwoSquarePawn = false ∧
    (makeMove (gvState c4Pos) c4Promo).en_passant_possible = some (2, 6) := by
  refine ⟨reachable_c4Pos, by decide, by decide, by decide⟩

/-- C4 (amended): after `make_move` of a non-promotion move the en-passant
target is non-empty iff the move was a two-square pawn advance; a
pawn-promotion move leaves `en_passant_possible` unchanged (possibly stale)
instead of clearing it. -/
theorem c4_amended (s : GState) (m : Move) :
    (m.is_pawn_promotion = false →
      ((makeMove s m).en_passant_possible ≠ none ↔ m.isTwoSquarePawn = true)) ∧
    (m.is_pawn_promotion = true →
      (makeMove s m).en_passant_possible = s.en_passant_possible) := by
  constructor
  · intro h
    by_cases h2 : m.isTwoSquarePawn = true
    · simp [makeMove, h, h2]
    · simp [makeMove, h, h2]
  · intro h
    cases hp : m.promotion_piece with
    | none => simp [makeMove, h, hp]
    | some pk =>
      cases hc : m.piece_moved.color with
      | none => simp [makeMove, h, hp, hc]
      | some col => simp [makeMove, h, hp, hc]

/-- C4 (amended) witness at a concrete input: the double step e2e4 from
the initial position. -/
theorem c4_amended_witness :
    (makeMove initialState mE2E4).en_passant_possible ≠ none ↔
      mE2E4.isTwoSquarePawn = true :=
  (c4_amended initialState mE2E4).1 (by decide)

/-- C5: in the reachable position `c5Pos` the legal capture b7xh1 removes
white's never-moved h1 rook from its home square, yet after `make_move`
white's king-side castling right is still `True`: `update_castling` only
looks at the moving piece and its start square, never at a captured rook,
so the claimed revocation does not happen. -/
theorem c5_rook_capture_keeps_castling_right :
    Reachable c5Pos ∧ c5RookCapture ∈ gvMoves c5Pos ∧
    c5RookCapture.piece_captured = wR ∧
    c5RookCapture.end_row = 7 ∧ c5RookCapture.end_col = 7 ∧
    bget c5Pos.board 7 7 = wR ∧
    c5Pos.castling_rights.white_king_side = true ∧
    (makeMove (gvState c5Pos) c5RookCapture).castling_rights.white_king_side = true := by
  refine ⟨reachable_c5Pos, by decide, by decide, by decide, by decide, by decide,
    by decide, by decide⟩

/-- C6 counterexample: in the reachable position `c6Pos` (1. e2e4 has been
undone, so `redo_log` is non-empty) the fresh legal move d2d4 — not the
move stored in `redo_log` — is applied by `make_move`, and `redo_log` is
NOT empty afterwards: `make_move` itself never clears the redo history. -/
theorem c6_counterexample :
    Reachable c6Pos ∧ c6Pos.redo_log = [mE2E4] ∧
    mD2D4 ∈ gvMoves c6Pos ∧ mD2D4 ∉ c6Pos.redo_log ∧
    (makeMove (gvState c6Pos) mD2D4).redo_log = [mE2E4] := by
  refine ⟨reachable_c6Pos, by decide, by decide, by decide, by decide⟩

/-- C6 (amended): `make_move` leaves `redo_log` unchanged; the redo branch
is invalidated by the caller (`ChessMain.main` executes
`game_state.redo_log = []` right after applying a fresh move), so the
composite user-level fresh apply leaves `redo_log` empty. -/
theorem c6_amended (s : GState) (m : Move) :
    (makeMove s m).redo_log = s.redo_log ∧ (applyNewMove s m).redo_log = [] := by
  have h : ∀ t : GState, ∀ mv : Move, (makeMove t mv).redo_log = t.redo_log := by
    intro t mv
    by_cases hp : mv.is_pawn_promotion = true
    · cases hq : mv.promotion_piece with
      | none => simp [makeMove, hp, hq]
      | some pk =>
        cases hc : mv.piece_moved.color with
        | none => simp [makeMove, hp, hq, hc]
        | some col => simp [makeMove, hp, hq, hc]
    · simp [makeMove, hp]
  exact ⟨h s m, by simp [applyNewMove]⟩

/-- C7: on a four-piece board with one bishop per side on same-colored
squares, `check_for_draw` does not return the prescribed verdict at all:
its four-piece scan reads `white_bishops[0]` and `black_bishops[0]` as soon
as either list is non-empty, raising `IndexError` (modelled as `none`). -/
theorem c7_check_for_draw_crashes :
    (boardPieces kbkbBoard).length = 4 ∧
    (boardPieces kbkbBoard).count wB = 1 ∧
    (boardPieces kbkbBoard).count bB = 1 ∧
    checkForDraw kbkbBoard = none := by
  refine ⟨by decide, by decide, by decide, by decide⟩

/-- C8: on the four-piece king-and-bishop board, `check_for_draw` raises
`IndexError`, and the exception escapes `get_valid_moves` (which calls it),
so the core operations do not all return normally. -/
theorem c8_get_valid_moves_raises :
    checkForDraw kbkbState.board = none ∧ getValidMoves kbkbState = none := by
  refine ⟨by decide, by decide⟩

/-- C3 counterexample: in `promoPos` (white has a deferred-promotion
candidate move) `get_valid_moves` returns normally but shrinks
`castling_log`: applying a promotion candidate pushes no rights snapshot
(early return) while undoing it still pops one. -/
theorem c3_counterexample :
    promoPos.castling_log = [allCastling] ∧
    (getValidMoves promoPos).map (fun p => p.2.castling_log) = some [] := by
  refine ⟨by decide, by decide⟩

/-- C9: two `Move` values with on-board coordinates compare equal under
`Move.__eq__` (i.e. by `move_ID`) iff their start and end squares agree,
regardless of every other field: the `move_ID` encoding is injective on
board squares. -/
theorem c9_move_eq_iff_squares (m1 m2 : Move)
    (h1 : coordsInRange m1) (h2 : coordsInRange m2) :
    moveEqB m1 m2 = true ↔
      (m1.start_row = m2.start_row ∧ m1.start_col = m2.start_col ∧
       m1.end_row = m2.end_row ∧ m1.end_col = m2.end_col) := by
  obtain ⟨a1, a2, a3, a4, a5, a6, a7, a8⟩ := h1
  obtain ⟨b1, b2, b3, b4, b5, b6, b7, b8⟩ := h2
  unfold moveEqB Move.move_ID
  rw [beq_iff_eq]
  constructor
  · intro h
    refine ⟨by omega, by omega, by omega, by omega⟩
  · rintro ⟨e1, e2, e3, e4⟩
    omega

/-- C9 witness at concrete inputs: the moves e2e4 and d2d4 (same piece,
different squares) compare unequal. -/
theorem c9_witness :
    moveEqB mE2E4 mD2D4 = true ↔
      (mE2E4.start_row = mD2D4.start_row ∧ mE2E4.start_col = mD2D4.start_col ∧
       mE2E4.end_row = mD2D4.end_row ∧ mE2E4.end_col = mD2D4.end_col) :=
  c9_move_eq_iff_squares mE2E4 mD2D4 (by decide) (by decide)

/-- C10: `square_under_attack` (and hence `in_check`) flips the side to
move and flips it back: the state it leaves behind is exactly the state it
was called on; nothing else is mutated. -/
theorem c10_square_under_attack_frame (s : GState) (r c : Int)
    (hr : 0 ≤ r ∧ r ≤ 7) (hc : 0 ≤ c ∧ c ≤ 7) :
    (squareUnderAttackRun s r c).2 = s ∧ (inCheckRun s).2 = s := by
  have hsu : ∀ r' c', (squareUnderAttackRun s r' c').2 = s := by
    intro r' c'
    cases s
    simp [squareUnderAttackRun]
  refine ⟨hsu r c, ?_⟩
  unfold inCheckRun
  split
  · exact hsu _ _
  · exact hsu _ _

/-- C10 witness at a concrete input: the initial position and square a8. -/
theorem c10_witness :
    (squareUnderAttackRun initialState 0 0).2 = initialState ∧
      (inCheckRun initialState).2 = initialState :=
  c10_square_under_attack_frame initialState 0 0 (by decide) (by decide)

/-- C2: in a well-formed position, every move returned by
`get_valid_moves` leaves the moving side's own king not under attack
immediately after the move is applied: with the turn flipped back to the
mover, `in_check` (i.e. `square_under_attack` at the mover's king) is
false on the position `make_move` produces.  The filter inside
`get_valid_moves` tests candidates on its drifting loop state, but the
drift (a possibly cleared en-passant target) cannot change the verdict. -/
theorem c2_legal_moves_leave_king_safe (s : GState) (hWF : WF s)
    (mv : List Move) (s' : GState) (h : getValidMoves s = some (mv, s'))
    (m : Move) (hm : m ∈ mv) :
    inCheckB { makeMove s m with
      white_to_move := !(makeMove s m).white_to_move } = false := by
  unfold getValidMoves at h
  have hpair : (if s.white_to_move then
      getCastlingMovesRun s s.white_king_location.1 s.white_king_location.2
        (getAllPossibleMoves s)
    else
      getCastlingMovesRun s s.black_king_location.1 s.black_king_location.2
        (getAllPossibleMoves s)) = (gvCandidates s, s) := by
    unfold gvCandidates
    split
    · exact Prod.ext rfl (getCastlingMovesRun_snd _ _ _ _)
    · exact Prod.ext rfl (getCastlingMovesRun_snd _ _ _ _)
  simp only [hpair] at h
  rcases hfl : filterLoop (gvCandidates s).length (gvCandidates s) s with ⟨mv2, sB⟩
  rw [hfl] at h
  simp only [inCheckRun_eta] at h
  have hmv : mv = mv2 := by
    by_cases hlen : (mv2.length == 0) = true
    · rw [if_pos hlen] at h
      by_cases hchk : inCheckB sB = true
      · rw [if_pos hchk] at h
        cases hdr : checkForDraw ({ sB with checkmate := true } : GState).board with
        | none =>
          rw [hdr] at h
          cases h
        | some d =>
          rw [hdr] at h
          rw [Option.some_inj] at h
          exact ((Prod.mk.injEq _ _ _ _).mp h).1.symm
      · rw [if_neg hchk] at h
        cases hdr : checkForDraw ({ sB with stalemate := true } : GState).board with
        | none =>
          rw [hdr] at h
          cases h
        | some d =>
          rw [hdr] at h
          rw [Option.some_inj] at h
          exact ((Prod.mk.injEq _ _ _ _).mp h).1.symm
    · rw [if_neg hlen] at h
      cases hdr : checkForDraw
          ({ sB with checkmate := false, stalemate := false } : GState).board with
      | none =>
        rw [hdr] at h
        cases h
      | some d =>
        rw [hdr] at h
        rw [Option.some_inj] at h
        exact ((Prod.mk.injEq _ _ _ _).mp h).1.symm
  have hkeep := filterLoop_keep s hWF (gvCandidates s).length (gvCandidates s) s
    (gvCandidates_ok s hWF) ⟨rfl, rfl, rfl, rfl, rfl, rfl, Or.inl rfl⟩ m
    (by rw [hfl]; exact hmv ▸ hm)
  rcases hkeep with hmem | hsafe
  · rw [List.drop_length] at hmem
    simp at hmem
  · exact hsafe

/-- C2 witness at a concrete input: the initial position (well-formed,
and `get_valid_moves` succeeds on it) and its legal move e2e4. -/
theorem c2_witness :
    WF initialState ∧ mE2E4 ∈ gvMoves initialState ∧
    inCheckB { makeMove initialState mE2E4 with
      white_to_move := !(makeMove initialState mE2E4).white_to_move } = false :=
  ⟨by decide, by decide,
    c2_legal_moves_leave_king_safe initialState (by decide) (gvMoves initialState)
      (gvState initialState) (by decide) mE2E4 (by decide)⟩

/-- C3 (amended): on a well-formed position, a `get_valid_moves` call
that returns normally restores the board, the side to move, both king
locations, the en-passant target, the castling rights, `move_log` and
`redo_log` to their entry values — but not necessarily `castling_log`,
which loses one entry for every promotion candidate the filter tried
(see the counterexample). -/
theorem c3_amended (s : GState) (hWF : WF s) (mv : List Move) (s' : GState)
    (h : getValidMoves s = some (mv, s')) :
    s'.board = s.board ∧ s'.white_to_move = s.white_to_move ∧
    s'.white_king_location = s.white_king_location ∧
    s'.black_king_location = s.black_king_location ∧
    s'.en_passant_possible = s.en_passant_possible ∧
    s'.castling_rights = s.castling_rights ∧
    s'.move_log = s.move_log ∧ s'.redo_log = s.redo_log :=
  getValidMoves_restores s hWF mv s' h

/-- C3 (amended) witness at a concrete input: `promoPos`, the position
whose candidate list contains a promotion (the position of the C3
counterexample, where `castling_log` does shrink). -/
theorem c3_amended_witness :
    WF promoPos ∧
    ((gvState promoPos).board = promoPos.board ∧
     (gvState promoPos).white_to_move = promoPos.white_to_move ∧
     (gvState promoPos).white_king_location = promoPos.white_king_location ∧
     (gvState promoPos).black_king_location = promoPos.black_king_location ∧
     (gvState promoPos).en_passant_possible = promoPos.en_passant_possible ∧
     (gvState promoPos).castling_rights = promoPos.castling_rights ∧
     (gvState promoPos).move_log = promoPos.move_log ∧
     (gvState promoPos).redo_log = promoPos.redo_log) :=
  ⟨by decide,
    c3_amended promoPos (by decide) (gvMoves promoPos) (gvState promoPos) (by decide)⟩
